import Mathlib

/-!
# Password strength analyzer and breach lookup

A shallow embedding of `analyzer.cpp` and `breach.cpp`.

A `std::string` is a sequence of bytes, modelled as `List Nat` (each element a
byte value).  The `<cctype>` classifiers are those of the "C" locale, the only
locale the program ever runs in (it never calls `setlocale`).
-/

namespace PwChecker

/-- A `std::string`: its bytes, in order. -/
abbrev Str := List Nat

/-- The bytes of an ASCII literal of the source. -/
def lit (s : String) : Str := s.toList.map Char.toNat

/-! ## `<cctype>` in the "C" locale -/

/-- C `islower`: `a`..`z`. -/
def islower (c : Nat) : Bool := 97 ≤ c && c ≤ 122

/-- C `isupper`: `A`..`Z`. -/
def isupper (c : Nat) : Bool := 65 ≤ c && c ≤ 90

/-- C `isdigit`: `0`..`9`. -/
def isdigit (c : Nat) : Bool := 48 ≤ c && c ≤ 57

/-- C `isalnum`: a letter or a digit. -/
def isalnum (c : Nat) : Bool := islower c || isupper c || isdigit c

/-- C `ispunct`: the printable characters that are neither space nor
alphanumeric, that is 33..47, 58..64, 91..96 and 123..126. -/
def ispunct (c : Nat) : Bool :=
  (33 ≤ c && c ≤ 47) || (58 ≤ c && c ≤ 64) || (91 ≤ c && c ≤ 96) || (123 ≤ c && c ≤ 126)

/-- C `isspace`: space, `\t`, `\n`, `\v`, `\f`, `\r`. -/
def isspace (c : Nat) : Bool := c == 32 || (9 ≤ c && c ≤ 13)

/-- C `tolower`: an uppercase letter goes to its lowercase letter, every other
value is unchanged. -/
def tolower (c : Nat) : Nat := if isupper c then c + 32 else c

/-! ## `std::string` operations -/

/-- The search of `std::string::find(sub, pos)` over the text that starts at
offset `pos`: the first offset at which `sub` occurs, `none` for `npos`. -/
def find_from (sub : Str) : Str → Nat → Option Nat
  | [], pos => if sub.isPrefixOf [] then some pos else none
  | c :: cs, pos => if sub.isPrefixOf (c :: cs) then some pos else find_from sub cs (pos + 1)

/-- `s.find(sub)`: offset of the first occurrence of `sub` in `s`, `none` for
`string::npos`. -/
def find (s sub : Str) : Option Nat := find_from sub s 0

/-- `s.substr(pos, n)`. -/
def substr (s : Str) (pos n : Nat) : Str := (s.drop pos).take n

/-- `std::to_string` of a non-negative `int`: its decimal digits. -/
def to_string (n : Nat) : Str := (Nat.toDigits 10 n).map Char.toNat

/-- `static_cast<int>` of a `size_t`: the value modulo 2^32, read as a signed
32-bit integer. -/
def static_cast_int (n : Nat) : Int :=
  if n % 2 ^ 32 < 2 ^ 31 then ((n % 2 ^ 32 : Nat) : Int) else ((n % 2 ^ 32 : Nat) : Int) - 2 ^ 32

/-! ## analyzer.cpp -/

/-- `any_lower`: some byte of `s` is a lowercase letter. -/
def any_lower (s : Str) : Bool := s.any islower

/-- `any_upper`: some byte of `s` is an uppercase letter. -/
def any_upper (s : Str) : Bool := s.any isupper

/-- `any_digit`: some byte of `s` is a digit. -/
def any_digit (s : Str) : Bool := s.any isdigit

/-- `any_special`: some byte of `s` is punctuation and not alphanumeric. -/
def any_special (s : Str) : Bool := s.any (fun c => ispunct c && !isalnum c)

/-- `lower`: a lowercase copy of `s`. -/
def lower (s : Str) : Str := s.map tolower

/-- `has_seq_digits(s, L)`: `s` contains a run of `L` ascending or descending
digits.  The two `for` loops return `true` at the first window found. -/
def has_seq_digits (s : Str) (L : Nat) : Bool :=
  let digits := lit "0123456789"
  let rev := lit "9876543210"
  if s.length < L then false
  else if (List.range (digits.length + 1 - L)).any
      (fun i => (find s (substr digits i L)).isSome) then true
  else if (List.range (rev.length + 1 - L)).any
      (fun i => (find s (substr rev i L)).isSome) then true
  else false

/-- The keyboard rows of `has_keyboard_walk`. -/
def rows : List Str := [lit "qwertyuiop", lit "asdfghjkl", lit "zxcvbnm"]

/-- The body of the `for (auto row : rows)` loop of `has_keyboard_walk`: does
this row, forwards or backwards, have a window of `L` keys that occurs in
`low`? -/
def row_walk (low : Str) (L : Nat) (r : Str) : Bool :=
  let rr := r.reverse
  if (List.range (r.length + 1 - L)).any (fun i => (find low (substr r i L)).isSome) then true
  else (List.range (rr.length + 1 - L)).any (fun i => (find low (substr rr i L)).isSome)

/-- `has_keyboard_walk(s, L)`: the lowercased `s` contains `L` consecutive keys
of a keyboard row, forwards or backwards. -/
def has_keyboard_walk (s : Str) (L : Nat) : Bool :=
  let low := lower s
  rows.any (row_walk low L)

/-- The record `Analysis` of analyzer.hpp. -/
structure Analysis where
  length : Int
  variety : Int
  score : Int
  rating : String
  reasons : List String
  suggestions : List String
deriving DecidableEq, Repr

/-- The two locals every rule of `analyze_password` updates. -/
structure Acc where
  score : Int
  reasons : List String
deriving DecidableEq, Repr

/-- The step `reasons.push_back(reason); score += delta;`. -/
def Acc.flag (a : Acc) (reason : String) (delta : Int) : Acc :=
  { score := a.score + delta, reasons := a.reasons ++ [reason] }

/-- The step `reasons.push_back(reason);` alone. -/
def Acc.note (a : Acc) (reason : String) : Acc := { a with reasons := a.reasons ++ [reason] }

/-- The step `score += delta;` alone. -/
def Acc.bonus (a : Acc) (delta : Int) : Acc := { a with score := a.score + delta }

def R_too_short : String := "Too short (<8)"
def R_short : String := "Short (<12)"
def R_variety : String := "Needs more character variety"
def R_common : String := "Contains common word/pattern (easily guessed)"
def R_repeat : String := "Contains repeated characters (e.g., aaa)"
def R_seq : String := "Contains digit sequence (e.g., 1234)"
def R_walk : String := "Keyboard sequence (e.g., qwerty)"
def R_year : String := "Includes a common year"
def R_site : String := "Contains site/app name (reuse risk)"

/-- Rule 1, length (analyzer.cpp lines 70-80). -/
def rule_length (length : Int) (a : Acc) : Acc :=
  if length < 8 then a.note R_too_short
  else if length < 12 then a.flag R_short 1
  else if length < 16 then a.bonus 2
  else a.bonus 3

/-- The variety count (lines 83-87): one for each class present. -/
def count_variety (pw : Str) : Int :=
  (if any_lower pw then 1 else 0) + (if any_upper pw then 1 else 0)
    + (if any_digit pw then 1 else 0) + (if any_special pw then 1 else 0)

/-- Rule 2, variety (lines 90-98). -/
def rule_variety (variety : Int) (a : Acc) : Acc :=
  if variety ≤ 1 then a.note R_variety
  else if variety = 2 then a.bonus 1
  else if variety = 3 then a.bonus 2
  else a.bonus 3

/-- The two patterns of `COMMON`.  Each is an alternation of literal words, so
it is kept as the list of its alternatives. -/
def COMMON : List (List Str) :=
  [ [lit "password", lit "letmein", lit "qwerty", lit "admin", lit "welcome", lit "iloveyou"],
    [lit "12345", lit "123456", lit "1234567", lit "12345678", lit "123456789",
     lit "111111", lit "000000"] ]

/-- `regex_search(low, re)` for an alternation of literals: some alternative
occurs in `low`. -/
def regex_search (low : Str) (re : List Str) : Bool :=
  re.any (fun w => (find low w).isSome)

/-- Rule 3, the loop over `COMMON` with its `break` (lines 106-112). -/
def rule_common (low : Str) : List (List Str) → Acc → Acc
  | [], a => a
  | re :: res, a => if regex_search low re then a.flag R_common (-2) else rule_common low res a

/-- Rule 4, the loop `for (i = 0; i + 2 < pw.size(); ++i)` with its `break`
(lines 115-121), over the indices still to visit. -/
def rule_repeat (pw : Str) : List Nat → Acc → Acc
  | [], a => a
  | i :: is, a =>
    if pw.getD i 0 = pw.getD (i + 1) 0 ∧ pw.getD i 0 = pw.getD (i + 2) 0 then a.flag R_repeat (-1)
    else rule_repeat pw is a

/-- Rule 7, the loop `for (y = 1990; y <= 2030; ++y)` with its `break`
(lines 136-142), over the years still to visit. -/
def rule_year (low : Str) : List Nat → Acc → Acc
  | [], a => a
  | y :: ys, a =>
    if (find low (to_string y)).isSome then a.flag R_year (-1) else rule_year low ys a

/-- Rule 8, site reuse (lines 145-151). -/
def rule_site (low site_hint : Str) (a : Acc) : Acc :=
  if ¬ site_hint.isEmpty then
    let sh := lower site_hint
    if (find low sh).isSome then a.flag R_site (-1) else a
  else a

/-- The buckets (lines 154-158). -/
def bucket (score : Int) : String :=
  if score ≤ 1 then "Weak"
  else if score ≤ 3 then "Fair"
  else if score ≤ 5 then "Good"
  else "Strong"

/-- The suggestions (lines 161-174). -/
def suggest (length variety : Int) (reasons : List String) : List String :=
  let s : List String := []
  let s := if length < 14 then s ++ ["Use 14+ characters"] else s
  let s := if variety < 3 then s ++ ["Mix upper/lower/digit/symbol"] else s
  let s := if reasons.contains R_common then s ++ ["Avoid common words or substitutions"] else s
  let s := if reasons.contains R_site then s ++ ["Do not include the site/app name"] else s
  let s := if reasons.contains R_year then s ++ ["Avoid years or dates"] else s
  let s := if reasons.contains R_seq then s ++ ["Avoid sequences like 1234 or 4321"] else s
  s

/-- The accumulator after the eight rules (lines 67-151). -/
def run_rules (pw site_hint : Str) : Acc :=
  let length := static_cast_int pw.length
  let a : Acc := { score := 0, reasons := [] }
  let a := rule_length length a
  let variety := count_variety pw
  let a := rule_variety variety a
  let low := lower pw
  let a := rule_common low COMMON a
  let a := rule_repeat pw (List.range (pw.length - 2)) a
  let a := if has_seq_digits low 4 then a.flag R_seq (-1) else a
  let a := if has_keyboard_walk low 4 then a.flag R_walk (-1) else a
  let a := rule_year low ((List.range 41).map (fun k => 1990 + k)) a
  rule_site low site_hint a

/-- `analyze_password(pw, site_hint)`. -/
def analyze_password (pw site_hint : Str) : Analysis :=
  let length := static_cast_int pw.length
  let variety := count_variety pw
  let a := run_rules pw site_hint
  { length := length
    variety := variety
    score := a.score
    rating := bucket a.score
    reasons := a.reasons
    suggestions := suggest length variety a.reasons }

/-- The accumulator after rules 1 to 7 (lines 67-142): `run_rules` before its
last step, the site-reuse rule. -/
def run_rules_before_site (pw : Str) : Acc :=
  let length := static_cast_int pw.length
  let a : Acc := { score := 0, reasons := [] }
  let a := rule_length length a
  let variety := count_variety pw
  let a := rule_variety variety a
  let low := lower pw
  let a := rule_common low COMMON a
  let a := rule_repeat pw (List.range (pw.length - 2)) a
  let a := if has_seq_digits low 4 then a.flag R_seq (-1) else a
  let a := if has_keyboard_walk low 4 then a.flag R_walk (-1) else a
  rule_year low ((List.range 41).map (fun k => 1990 + k)) a

/-! ## breach.cpp -/

/-- Left rotation of a 32-bit word. -/
def rotl32 (x n : Nat) : Nat := ((x <<< n) ||| (x >>> (32 - n))) % 2 ^ 32

/-- The padded message of SHA-1: the bytes, `0x80`, zero bytes up to 56 modulo
64, and the bit length as 8 big-endian bytes. -/
def sha1_pad (msg : Str) : Str :=
  let bytes := msg.map (fun b => b % 256)
  let bits := 8 * bytes.length
  bytes ++ [128] ++ List.replicate ((119 - bytes.length % 64) % 64) 0
    ++ (List.range 8).map (fun i => (bits >>> (8 * (7 - i))) % 256)

/-- The 16 big-endian words of a 64-byte block. -/
def sha1_words (block : Str) : List Nat :=
  (List.range 16).map (fun i =>
    block.getD (4 * i) 0 * 2 ^ 24 + block.getD (4 * i + 1) 0 * 2 ^ 16
      + block.getD (4 * i + 2) 0 * 2 ^ 8 + block.getD (4 * i + 3) 0)

/-- The message schedule: the 16 words extended to 80. -/
def sha1_schedule (w : List Nat) : List Nat :=
  (List.range 64).foldl (fun w k =>
    let i := k + 16
    w ++ [rotl32 (w.getD (i - 3) 0 ^^^ w.getD (i - 8) 0 ^^^ w.getD (i - 14) 0
      ^^^ w.getD (i - 16) 0) 1]) w

/-- One of the 80 rounds of the compression function, on (a, b, c, d, e). -/
def sha1_round (w : List Nat) (st : Nat × Nat × Nat × Nat × Nat) (i : Nat) :
    Nat × Nat × Nat × Nat × Nat :=
  let (a, b, c, d, e) := st
  let f :=
    if i < 20 then (b &&& c) ||| ((b ^^^ (2 ^ 32 - 1)) &&& d)
    else if i < 40 then b ^^^ c ^^^ d
    else if i < 60 then (b &&& c) ||| (b &&& d) ||| (c &&& d)
    else b ^^^ c ^^^ d
  let k :=
    if i < 20 then 0x5A827999 else if i < 40 then 0x6ED9EBA1
    else if i < 60 then 0x8F1BBCDC else 0xCA62C1D6
  ((rotl32 a 5 + f + e + k + w.getD i 0) % 2 ^ 32, a, rotl32 b 30, c, d)

/-- The compression function on one block. -/
def sha1_block (h : Nat × Nat × Nat × Nat × Nat) (block : Str) : Nat × Nat × Nat × Nat × Nat :=
  let w := sha1_schedule (sha1_words block)
  let (a, b, c, d, e) := (List.range 80).foldl (sha1_round w) h
  ((h.1 + a) % 2 ^ 32, (h.2.1 + b) % 2 ^ 32, (h.2.2.1 + c) % 2 ^ 32,
    (h.2.2.2.1 + d) % 2 ^ 32, (h.2.2.2.2 + e) % 2 ^ 32)

/-- The 64-byte blocks of a padded message. -/
def sha1_blocks (n : Nat) (padded : Str) : List Str :=
  (List.range n).map (fun i => (padded.drop (64 * i)).take 64)

/-- The 4 big-endian bytes of a 32-bit word. -/
def be32 (x : Nat) : Str := [x / 2 ^ 24 % 256, x / 2 ^ 16 % 256, x / 2 ^ 8 % 256, x % 256]

/-- OpenSSL `SHA1(data, len, digest)`: the 20 bytes it writes to `digest`
(SHA-1 as in FIPS 180-4).  The library is not part of the repository; it is
embedded so that `sha1_hex_upper` can be run. -/
def SHA1 (s : Str) : Str :=
  let padded := sha1_pad s
  let (a, b, c, d, e) := (sha1_blocks (padded.length / 64) padded).foldl sha1_block
    (0x67452301, 0xEFCDAB89, 0x98BADCFE, 0x10325476, 0xC3D2E1F0)
  be32 a ++ be32 b ++ be32 c ++ be32 d ++ be32 e

/-- The macro `SHA_DIGEST_LENGTH` of `<openssl/sha.h>`. -/
def SHA_DIGEST_LENGTH : Nat := 20

/-- C `toupper`. -/
def toupper (c : Nat) : Nat := if islower c then c - 32 else c

/-- What `oss << uppercase << hex << setw(2) << setfill('0') << n` appends for
a non-negative `n`: the hexadecimal digits of `n` in uppercase, padded on the
left with `0` to a width of 2. -/
def put_hex2 (n : Nat) : Str :=
  let digits := (Nat.toDigits 16 n).map (fun c => toupper c.toNat)
  List.replicate (2 - digits.length) 48 ++ digits

/-- `sha1_hex_upper(s)`: the loop over the `SHA_DIGEST_LENGTH` bytes of
`unsigned char digest[]`, each appended as `(int)digest[i]`. -/
def sha1_hex_upper (s : Str) : Str :=
  let digest := SHA1 s
  (List.range SHA_DIGEST_LENGTH).foldl (fun oss i => oss ++ put_hex2 (digest.getD i 0 % 256)) []

/-- How a call ends: it returns a value, throws an exception with a message,
or the model ran out of fuel. -/
inductive Outcome (α : Type) where
  | ret (a : α)
  | throw (what : String)
  | out_of_fuel
deriving DecidableEq, Repr

/-- What libcurl reports for one transfer: the `CURLcode` of
`curl_easy_perform`, the HTTP status and the bytes passed to `write_cb`. -/
structure Response where
  rc : Nat
  http_code : Int
  body : Str
deriving DecidableEq, Repr

/-- The request `http_get_range` configures with `curl_easy_setopt`. -/
structure Request where
  url : Str
  useragent : Str
deriving DecidableEq, Repr

/-- The world `http_get_range` talks to: whether `curl_easy_init` gives a
handle, and what a transfer of a request yields. -/
structure Transport where
  init_ok : Bool
  perform : Request → Response

/-- The value `CURLE_OK`. -/
def CURLE_OK : Nat := 0

/-- `http_get_range(prefix5)`: the requests sent, and the body or the
exception. -/
def http_get_range (net : Transport) (prefix5 : Str) : List Request × Outcome Str :=
  let url := lit "https://api.pwnedpasswords.com/range/" ++ prefix5
  if ¬ net.init_ok then ([], Outcome.throw "curl_easy_init failed")
  else
    let req : Request := { url := url, useragent := lit "PiPwChecker-Cpp/1.0 (Raspberry Pi)" }
    let resp := net.perform req
    if resp.rc ≠ CURLE_OK then ([req], Outcome.throw "curl perform failed")
    else if resp.http_code ≠ 200 then
      ([req], Outcome.throw ("HTTP status " ++ toString resp.http_code))
    else ([req], Outcome.ret resp.body)

/-- `std::stoi(s)`: skips leading whitespace, reads an optional sign and the
decimal digits that follow, and ignores what comes after them.  `none` stands
for the exception it throws: `invalid_argument` when there is no digit,
`out_of_range` when the value does not fit an `int`. -/
def stoi (s : Str) : Option Int :=
  let s := s.dropWhile isspace
  let neg := s.head? = some 45
  let s := if s.head? = some 45 ∨ s.head? = some 43 then s.drop 1 else s
  let ds := s.takeWhile isdigit
  if ds.isEmpty then none
  else
    let v : Nat := ds.foldl (fun acc d => 10 * acc + (d - 48)) 0
    let n : Int := if neg then -(v : Int) else (v : Int)
    if n < -(2 ^ 31) ∨ 2 ^ 31 - 1 < n then none else some n

/-- The body of the `while` loop of `pwned_count` for one line (lines 84-95):
`some r` when it executes `return r`, `none` when it falls through. -/
def match_line (line suffix : Str) : Option (Bool × Int) :=
  if ¬ line.isEmpty then
    let line := if ¬ line.isEmpty ∧ line.getLast? = some 13 then line.dropLast else line
    match find line [58] with
    | some colon =>
      let suf := substr line 0 colon
      let cnt := line.drop (colon + 1)
      if suf = suffix then
        match stoi cnt with
        | some n => some (true, n)
        | none => some (true, 1)
      else none
    | none => none
  else none

/-- The `while (true)` loop of `pwned_count` (lines 79-99) from offset `start`,
with one unit of fuel per iteration. -/
def scan_lines (body suffix : Str) : Nat → Nat → Outcome (Bool × Int)
  | 0, _ => Outcome.out_of_fuel
  | fuel + 1, start =>
    let end_ := find_from [10] (body.drop start) start
    let line := match end_ with
      | none => body.drop start
      | some e => substr body start (e - start)
    match match_line line suffix with
    | some r => Outcome.ret r
    | none =>
      match end_ with
      | none => Outcome.ret (false, 0)
      | some e => scan_lines body suffix fuel (e + 1)

/-- The local matching step of `pwned_count` (lines 78-99) on a received body.
Every iteration but the last consumes a line feed, so `body.length + 1`
iterations are enough. -/
def match_body (body suffix : Str) : Outcome (Bool × Int) :=
  scan_lines body suffix (body.length + 1) 0

/-- `pwned_count(password)`: the requests sent, and the pair or the
exception. -/
def pwned_count (net : Transport) (password : Str) : List Request × Outcome (Bool × Int) :=
  let full := sha1_hex_upper password
  let pfx := substr full 0 5
  let suffix := full.drop 5
  match http_get_range net pfx with
  | (sent, Outcome.ret body) => (sent, match_body body suffix)
  | (sent, Outcome.throw what) => (sent, Outcome.throw what)
  | (sent, Outcome.out_of_fuel) => (sent, Outcome.out_of_fuel)

/-! ## What each rule contributes -/

/-- The reason list a rule that fires or not contributes. -/
def fired (b : Bool) (reason : String) : List String := if b then [reason] else []

/-- The score a rule that fires or not contributes. -/
def penalty (b : Bool) (delta : Int) : Int := if b then delta else 0

/-- Score contributed by rule 1. -/
def len_bonus (length : Int) : Int :=
  if length < 8 then 0 else if length < 12 then 1 else if length < 16 then 2 else 3

/-- Reasons contributed by rule 1. -/
def len_reasons (length : Int) : List String :=
  if length < 8 then [R_too_short] else if length < 12 then [R_short] else []

/-- Score contributed by rule 2. -/
def var_bonus (variety : Int) : Int :=
  if variety ≤ 1 then 0 else if variety = 2 then 1 else if variety = 3 then 2 else 3

/-- Does rule 3 fire: some pattern of `COMMON` is found in `low`. -/
def common_hit (low : Str) : Bool := COMMON.any (regex_search low)

/-- Does rule 4 fire: some visited index starts three equal bytes. -/
def repeat_hit (pw : Str) : Bool :=
  (List.range (pw.length - 2)).any
    (fun i => decide (pw.getD i 0 = pw.getD (i + 1) 0 ∧ pw.getD i 0 = pw.getD (i + 2) 0))

/-- Does rule 7 fire: the text of some year 1990..2030 is found in `low`. -/
def year_hit (low : Str) : Bool :=
  ((List.range 41).map (fun k => 1990 + k)).any (fun y => (find low (to_string y)).isSome)

/-- Does rule 8 fire. -/
def site_hit (low site_hint : Str) : Bool :=
  !site_hint.isEmpty && (find low (lower site_hint)).isSome

/-! ## Notions the stated properties use -/

/-- The order Weak < Fair < Good < Strong of the ratings. -/
def rating_rank (rating : String) : Nat :=
  if rating = "Weak" then 0 else if rating = "Fair" then 1 else if rating = "Good" then 2 else 3

/-- The common words and runs as the property C10 lists them. -/
def common_words : List Str :=
  [lit "password", lit "letmein", lit "qwerty", lit "admin", lit "welcome", lit "iloveyou",
   lit "12345", lit "111111", lit "000000"]

/-- The longer runs 123456..123456789 of the property C10. -/
def longer_runs : List Str := [lit "123456", lit "1234567", lit "12345678", lit "123456789"]

/-- The uppercase hexadecimal digit of a value below 16. -/
def hex_digit_upper (d : Nat) : Nat := if d < 10 then 48 + d else 55 + d

/-- Splitting a body on line feeds; the text after the last line feed is a
line too. -/
def split_lines : Str → List Str
  | [] => [[]]
  | c :: cs =>
    if c = 10 then [] :: split_lines cs
    else
      match split_lines cs with
      | l :: ls => (c :: l) :: ls
      | [] => [[c]]

/-- A line without one trailing carriage return. -/
def strip_cr (l : Str) : Str := if l.getLast? = some 13 then l.dropLast else l

/-- The text of a line before its first colon. -/
def line_key (l : Str) : Str := l.takeWhile (fun x => x != 58)

/-- The text of a line after its first colon. -/
def line_value (l : Str) : Str := (l.dropWhile (fun x => x != 58)).drop 1

/-- The count a line carries: its value read by `stoi`, 1 when `stoi` throws. -/
def line_count (l : Str) : Int := (stoi (line_value l)).getD 1

/-- The reference lookup among lines already split. -/
def ref_lines (ls : List Str) (suffix : Str) : Bool × Int :=
  match ((ls.map strip_cr).filter (fun l => !l.isEmpty && l.contains 58)).find?
      (fun l => line_key l == suffix) with
  | some l => (true, line_count l)
  | none => (false, 0)

/-- The lines of a body the lookup considers: split on line feeds, one
trailing carriage return removed, blank lines and lines without a colon
skipped. -/
def response_lines (body : Str) : List Str :=
  ((split_lines body).map strip_cr).filter (fun l => !l.isEmpty && l.contains 58)

/-- The reference lookup of the property C4: the first considered line whose
key is the suffix decides, and no such line means `(false, 0)`. -/
def ref_match (body suffix : Str) : Bool × Int :=
  match (response_lines body).find? (fun l => line_key l == suffix) with
  | some l => (true, line_count l)
  | none => (false, 0)

/-- The 5-character prefix `pwned_count` takes from the digest. -/
def digest_pfx (password : Str) : Str := substr (sha1_hex_upper password) 0 5

/-- The suffix `pwned_count` keeps of the digest. -/
def digest_suffix (password : Str) : Str := (sha1_hex_upper password).drop 5

/-- The request of `pwned_count` for a password, when it sends one. -/
def range_request (password : Str) : Request :=
  { url := lit "https://api.pwnedpasswords.com/range/" ++ digest_pfx password
    useragent := lit "PiPwChecker-Cpp/1.0 (Raspberry Pi)" }

/-- A transport that succeeds with status 200 and the given body. -/
def ok_transport (body : Str) : Transport :=
  { init_ok := true, perform := fun _ => { rc := CURLE_OK, http_code := 200, body := body } }

/-- A count field that is a non-negative decimal integer: digits only, at
least one. -/
def is_nonneg_decimal (cnt : Str) : Bool := !cnt.isEmpty && cnt.all isdigit

/-- The decimal text of a number of four digits. -/
def four_digits (y : Nat) : Str :=
  [48 + y / 1000 % 10, 48 + y / 100 % 10, 48 + y / 10 % 10, 48 + y % 10]

/-- The fixed list of reasons, in the order of the rules. -/
def all_reasons : List String :=
  [R_too_short, R_short, R_variety, R_common, R_repeat, R_seq, R_walk, R_year, R_site]

/-- The checklist of suggestions with the condition of each, in order. -/
def checklist (length variety : Int) (reasons : List String) : List (Bool × String) :=
  [(decide (length < 14), "Use 14+ characters"),
   (decide (variety < 3), "Mix upper/lower/digit/symbol"),
   (decide (R_common ∈ reasons), "Avoid common words or substitutions"),
   (decide (R_site ∈ reasons), "Do not include the site/app name"),
   (decide (R_year ∈ reasons), "Avoid years or dates"),
   (decide (R_seq ∈ reasons), "Avoid sequences like 1234 or 4321")]

/-- A byte no other byte is lowered to, and that is lowered to itself. -/
def case_free (c : Nat) : Prop := ∀ x, tolower x = c ↔ x = c

/-- A text with each uppercase ASCII letter (bytes 65..90) replaced by its
lowercase letter (32 more), every other byte kept. -/
def ascii_lowercase (s : Str) : Str := s.map (fun c => if 65 ≤ c ∧ c ≤ 90 then c + 32 else c)

/-! ## Facts about the string operations -/

theorem find_from_isSome (sub : Str) (s : Str) (pos : Nat) :
    (find_from sub s pos).isSome = true ↔ sub <:+: s := by
  induction s generalizing pos with
  | nil =>
    cases sub <;> simp [find_from]
  | cons c cs ih =>
    unfold find_from
    by_cases hp : sub.isPrefixOf (c :: cs) = true
    · simp only [hp, if_true, Option.isSome_some, true_iff]
      exact (List.isPrefixOf_iff_prefix.mp hp).isInfix
    · simp only [hp, Bool.false_eq_true, if_false, ih, List.infix_cons_iff]
      constructor
      · exact Or.inr
      · rintro (h | h)
        · exact absurd (List.isPrefixOf_iff_prefix.mpr h) hp
        · exact h

theorem find_isSome (s sub : Str) : (find s sub).isSome = true ↔ sub <:+: s :=
  find_from_isSome sub s 0

/-! ## Facts about the rules of `analyze_password` -/

theorem rule_length_eq (length : Int) (a : Acc) :
    rule_length length a
      = { score := a.score + len_bonus length, reasons := a.reasons ++ len_reasons length } := by
  unfold rule_length len_bonus len_reasons Acc.note Acc.flag Acc.bonus
  split_ifs <;> simp

theorem rule_variety_eq (variety : Int) (a : Acc) :
    rule_variety variety a
      = { score := a.score + var_bonus variety
          reasons := a.reasons ++ fired (decide (variety ≤ 1)) R_variety } := by
  unfold rule_variety var_bonus fired Acc.note Acc.bonus
  split_ifs <;> first | (simp_all; done) | (simp_all; omega)

theorem flag_if_eq (b : Bool) (a : Acc) (reason : String) (delta : Int) :
    (if b = true then a.flag reason delta else a)
      = { score := a.score + penalty b delta, reasons := a.reasons ++ fired b reason } := by
  cases b <;> simp [Acc.flag, penalty, fired]

theorem rule_common_eq (low : Str) (res : List (List Str)) (a : Acc) :
    rule_common low res a
      = { score := a.score + penalty (res.any (regex_search low)) (-2)
          reasons := a.reasons ++ fired (res.any (regex_search low)) R_common } := by
  induction res with
  | nil => simp [rule_common, penalty, fired]
  | cons re res ih =>
    unfold rule_common
    by_cases h : regex_search low re = true
    · simp [h, Acc.flag, penalty, fired]
    · simp [h, ih]

theorem rule_repeat_eq (pw : Str) (is : List Nat) (a : Acc) :
    rule_repeat pw is a
      = { score := a.score + penalty (is.any (fun i =>
            decide (pw.getD i 0 = pw.getD (i + 1) 0 ∧ pw.getD i 0 = pw.getD (i + 2) 0))) (-1)
          reasons := a.reasons ++ fired (is.any (fun i =>
            decide (pw.getD i 0 = pw.getD (i + 1) 0 ∧ pw.getD i 0 = pw.getD (i + 2) 0))) R_repeat } := by
  induction is with
  | nil => simp [rule_repeat, penalty, fired]
  | cons i is ih =>
    unfold rule_repeat
    by_cases h : pw.getD i 0 = pw.getD (i + 1) 0 ∧ pw.getD i 0 = pw.getD (i + 2) 0
    · rw [if_pos h]
      simp only [List.any_cons, decide_eq_true h, Bool.true_or, penalty, fired, if_true, Acc.flag]
    · rw [if_neg h, ih]
      simp only [List.any_cons, decide_eq_false h, Bool.false_or]

theorem rule_year_eq (low : Str) (ys : List Nat) (a : Acc) :
    rule_year low ys a
      = { score := a.score + penalty (ys.any (fun y => (find low (to_string y)).isSome)) (-1)
          reasons := a.reasons
            ++ fired (ys.any (fun y => (find low (to_string y)).isSome)) R_year } := by
  induction ys with
  | nil => simp [rule_year, penalty, fired]
  | cons y ys ih =>
    unfold rule_year
    by_cases h : (find low (to_string y)).isSome = true
    · simp [h, Acc.flag, penalty, fired]
    · simp [h, ih]

theorem rule_site_eq (low site_hint : Str) (a : Acc) :
    rule_site low site_hint a
      = { score := a.score + penalty (site_hit low site_hint) (-1)
          reasons := a.reasons ++ fired (site_hit low site_hint) R_site } := by
  unfold rule_site site_hit
  by_cases h1 : site_hint.isEmpty = true
  · simp [h1, penalty, fired]
  · by_cases h2 : (find low (lower site_hint)).isSome = true
    · simp [h1, h2, Acc.flag, penalty, fired]
    · simp [h1, h2, penalty, fired]

/-- The accumulator after the eight rules, rule by rule. -/
theorem run_rules_eq (pw site_hint : Str) :
    run_rules pw site_hint
      = { score := len_bonus (static_cast_int pw.length) + var_bonus (count_variety pw)
            + penalty (common_hit (lower pw)) (-2) + penalty (repeat_hit pw) (-1)
            + penalty (has_seq_digits (lower pw) 4) (-1)
            + penalty (has_keyboard_walk (lower pw) 4) (-1)
            + penalty (year_hit (lower pw)) (-1) + penalty (site_hit (lower pw) site_hint) (-1)
          reasons := len_reasons (static_cast_int pw.length)
            ++ fired (decide (count_variety pw ≤ 1)) R_variety
            ++ fired (common_hit (lower pw)) R_common ++ fired (repeat_hit pw) R_repeat
            ++ fired (has_seq_digits (lower pw) 4) R_seq
            ++ fired (has_keyboard_walk (lower pw) 4) R_walk
            ++ fired (year_hit (lower pw)) R_year
            ++ fired (site_hit (lower pw) site_hint) R_site } := by
  simp only [run_rules, rule_length_eq, rule_variety_eq, rule_common_eq, rule_repeat_eq,
    flag_if_eq, rule_year_eq, rule_site_eq, common_hit, repeat_hit, year_hit, zero_add,
    List.nil_append]


theorem mem_fired (r reason : String) (b : Bool) : r ∈ fired b reason ↔ (b = true ∧ r = reason) := by
  cases b <;> simp [fired]

theorem mem_len_reasons (r : String) (length : Int) :
    r ∈ len_reasons length
      ↔ (length < 8 ∧ r = R_too_short) ∨ (8 ≤ length ∧ length < 12 ∧ r = R_short) := by
  unfold len_reasons
  split_ifs with h1 h2
  · simp only [List.mem_singleton]
    constructor
    · intro h; exact Or.inl ⟨h1, h⟩
    · rintro (⟨_, h⟩ | ⟨h, _⟩)
      · exact h
      · omega
  · simp only [List.mem_singleton]
    constructor
    · intro h; exact Or.inr ⟨by omega, h2, h⟩
    · rintro (⟨h, _⟩ | ⟨_, _, h⟩)
      · omega
      · exact h
  · simp only [List.not_mem_nil, false_iff]
    rintro (⟨h, _⟩ | ⟨_, h, _⟩) <;> omega

/-- Which reasons `analyze_password` returns. -/
theorem mem_reasons (pw site_hint : Str) (r : String) :
    r ∈ (analyze_password pw site_hint).reasons
      ↔ ((analyze_password pw site_hint).length < 8 ∧ r = R_too_short)
        ∨ (8 ≤ (analyze_password pw site_hint).length
            ∧ (analyze_password pw site_hint).length < 12 ∧ r = R_short)
        ∨ ((analyze_password pw site_hint).variety ≤ 1 ∧ r = R_variety)
        ∨ (common_hit (lower pw) = true ∧ r = R_common)
        ∨ (repeat_hit pw = true ∧ r = R_repeat)
        ∨ (has_seq_digits (lower pw) 4 = true ∧ r = R_seq)
        ∨ (has_keyboard_walk (lower pw) 4 = true ∧ r = R_walk)
        ∨ (year_hit (lower pw) = true ∧ r = R_year)
        ∨ (site_hit (lower pw) site_hint = true ∧ r = R_site) := by
  simp only [analyze_password, run_rules_eq, List.mem_append, mem_fired, mem_len_reasons,
    decide_eq_true_eq, or_assoc]

theorem common_mem (pw site_hint : Str) :
    R_common ∈ (analyze_password pw site_hint).reasons ↔ common_hit (lower pw) = true := by
  rw [mem_reasons]; simp [R_common, R_too_short, R_short, R_variety, R_repeat, R_seq, R_walk,
    R_year, R_site]

theorem repeat_mem (pw site_hint : Str) :
    R_repeat ∈ (analyze_password pw site_hint).reasons ↔ repeat_hit pw = true := by
  rw [mem_reasons]; simp [R_common, R_too_short, R_short, R_variety, R_repeat, R_seq, R_walk,
    R_year, R_site]

theorem seq_mem (pw site_hint : Str) :
    R_seq ∈ (analyze_password pw site_hint).reasons ↔ has_seq_digits (lower pw) 4 = true := by
  rw [mem_reasons]; simp [R_common, R_too_short, R_short, R_variety, R_repeat, R_seq, R_walk,
    R_year, R_site]

theorem walk_mem (pw site_hint : Str) :
    R_walk ∈ (analyze_password pw site_hint).reasons ↔ has_keyboard_walk (lower pw) 4 = true := by
  rw [mem_reasons]; simp [R_common, R_too_short, R_short, R_variety, R_repeat, R_seq, R_walk,
    R_year, R_site]

theorem year_mem (pw site_hint : Str) :
    R_year ∈ (analyze_password pw site_hint).reasons ↔ year_hit (lower pw) = true := by
  rw [mem_reasons]; simp [R_common, R_too_short, R_short, R_variety, R_repeat, R_seq, R_walk,
    R_year, R_site]

theorem site_mem (pw site_hint : Str) :
    R_site ∈ (analyze_password pw site_hint).reasons ↔ site_hit (lower pw) site_hint = true := by
  rw [mem_reasons]; simp [R_common, R_too_short, R_short, R_variety, R_repeat, R_seq, R_walk,
    R_year, R_site]

theorem count_variety_bounds (pw : Str) : 0 ≤ count_variety pw ∧ count_variety pw ≤ 4 := by
  unfold count_variety
  split_ifs <;> omega

theorem score_eq (pw site_hint : Str) :
    (analyze_password pw site_hint).score
      = len_bonus (analyze_password pw site_hint).length
        + var_bonus (analyze_password pw site_hint).variety
        + penalty (common_hit (lower pw)) (-2) + penalty (repeat_hit pw) (-1)
        + penalty (has_seq_digits (lower pw) 4) (-1)
        + penalty (has_keyboard_walk (lower pw) 4) (-1)
        + penalty (year_hit (lower pw)) (-1) + penalty (site_hit (lower pw) site_hint) (-1) := by
  simp only [analyze_password, run_rules_eq]

theorem count_fired (r reason : String) (b : Bool) :
    (fired b reason).count r = if b = true ∧ reason = r then 1 else 0 := by
  cases b
  · simp [fired]
  · by_cases hr : reason = r
    · subst hr; simp [fired]
    · simp [fired, hr, List.count_singleton]

theorem common_hit_any (low : Str) :
    common_hit low = true ↔ ∃ re ∈ COMMON, ∃ w ∈ re, w <:+: low := by
  simp only [common_hit, regex_search, List.any_eq_true, find_isSome]

set_option maxRecDepth 100000 in
theorem common_hit_iff (low : Str) :
    common_hit low = true ↔ ∃ w ∈ common_words, w <:+: low := by
  have hsub : ∀ re ∈ COMMON, ∀ w ∈ re, ∃ v ∈ common_words, v <:+: w := by decide
  have hsup : ∀ v ∈ common_words, ∃ re ∈ COMMON, v ∈ re := by decide
  rw [common_hit_any]
  constructor
  · rintro ⟨re, hre, w, hw, hin⟩
    obtain ⟨v, hv, hvw⟩ := hsub re hre w hw
    exact ⟨v, hv, hvw.trans hin⟩
  · rintro ⟨v, hv, hin⟩
    obtain ⟨re, hre, hvre⟩ := hsup v hv
    exact ⟨re, hre, v, hvre, hin⟩

theorem infix_of_longer_run (low : Str) (h : ∃ w ∈ longer_runs, w <:+: low) :
    ∃ w ∈ common_words, w <:+: low := by
  have h6 : lit "12345" <:+: lit "123456" := by decide
  have h7 : lit "12345" <:+: lit "1234567" := by decide
  have h8 : lit "12345" <:+: lit "12345678" := by decide
  have h9 : lit "12345" <:+: lit "123456789" := by decide
  obtain ⟨w, hw, hin⟩ := h
  refine ⟨lit "12345", by simp [common_words], ?_⟩
  simp only [longer_runs, List.mem_cons, List.mem_singleton, List.not_mem_nil, or_false] at hw
  rcases hw with rfl | rfl | rfl | rfl
  · exact h6.trans hin
  · exact h7.trans hin
  · exact h8.trans hin
  · exact h9.trans hin

/-! ## Facts about `sha1_hex_upper` and `pwned_count` -/

set_option maxRecDepth 1000000 in
theorem put_hex2_eq : ∀ b, b < 256 →
    put_hex2 b = [hex_digit_upper (b / 16), hex_digit_upper (b % 16)] := by
  decide

theorem foldl_append_eq {α : Type} (f : Nat → List α) (l : List Nat) (init : List α) :
    l.foldl (fun oss i => oss ++ f i) init = init ++ (l.map f).flatten := by
  induction l generalizing init with
  | nil => simp
  | cons x xs ih => simp [ih]

theorem find_from_single (c : Nat) (l : Str) (pos : Nat) :
    find_from [c] l pos
      = if c ∈ l then some (pos + (l.takeWhile (fun x => x != c)).length) else none := by
  induction l generalizing pos with
  | nil => simp [find_from]
  | cons x xs ih =>
    unfold find_from
    by_cases h : c = x
    · subst h; simp
    · have h2 : (x != c) = true := by simp [Ne.symm h]
      simp [h, ih, h2, List.takeWhile_cons]
      split_ifs <;> simp; omega

theorem pairs_length (a b : Nat → Nat) (l : List Nat) :
    ((l.map (fun i => [a i, b i])).flatten).length = 2 * l.length := by
  induction l with
  | nil => rfl
  | cons x xs ih => simp only [List.map_cons, List.flatten_cons, List.length_append, ih,
      List.length_cons, List.length_nil]; omega

theorem pairs_mem (a b : Nat → Nat) (l : List Nat) (c : Nat) :
    c ∈ (l.map (fun i => [a i, b i])).flatten ↔ ∃ i ∈ l, c = a i ∨ c = b i := by
  induction l with
  | nil => simp
  | cons x xs ih => simp [ih, or_assoc]

theorem pairs_getD (a b : Nat → Nat) (l : List Nat) (i : Nat) (hi : i < l.length) :
    ((l.map (fun i => [a i, b i])).flatten).getD (2 * i) 0 = a (l.getD i 0)
      ∧ ((l.map (fun i => [a i, b i])).flatten).getD (2 * i + 1) 0 = b (l.getD i 0) := by
  induction l generalizing i with
  | nil => simp at hi
  | cons x xs ih =>
    cases i with
    | zero => simp
    | succ j =>
      have hj : j < xs.length := by simpa using hi
      have e1 : 2 * (j + 1) = (2 * j) + 1 + 1 := by ring
      have := ih j hj
      rw [e1]
      simpa using this

theorem hex_digit_upper_range (d : Nat) (h : d < 16) :
    (48 ≤ hex_digit_upper d ∧ hex_digit_upper d ≤ 57)
      ∨ (65 ≤ hex_digit_upper d ∧ hex_digit_upper d ≤ 70) := by
  unfold hex_digit_upper; split_ifs <;> omega

/-- `sha1_hex_upper` as the two digits of each of the 20 bytes. -/
theorem sha1_hex_upper_eq (s : Str) :
    sha1_hex_upper s
      = ((List.range 20).map (fun i =>
          [hex_digit_upper ((SHA1 s).getD i 0 % 256 / 16),
           hex_digit_upper ((SHA1 s).getD i 0 % 256 % 16)])).flatten := by
  unfold sha1_hex_upper SHA_DIGEST_LENGTH
  simp only [foldl_append_eq, List.nil_append]
  congr 1
  apply List.map_congr_left
  intro i _
  exact put_hex2_eq _ (Nat.mod_lt _ (by norm_num))

theorem sha1_hex_upper_length (s : Str) : (sha1_hex_upper s).length = 40 := by
  rw [sha1_hex_upper_eq, pairs_length]; simp

theorem sha1_hex_upper_chars (s : Str) (c : Nat) (hc : c ∈ sha1_hex_upper s) :
    (48 ≤ c ∧ c ≤ 57) ∨ (65 ≤ c ∧ c ≤ 70) := by
  rw [sha1_hex_upper_eq, pairs_mem] at hc
  obtain ⟨i, _, h | h⟩ := hc
  · rw [h]; exact hex_digit_upper_range _ (Nat.div_lt_of_lt_mul (Nat.mod_lt _ (by norm_num)))
  · rw [h]; exact hex_digit_upper_range _ (Nat.mod_lt _ (by norm_num))

theorem SHA1_length (s : Str) : (SHA1 s).length = 20 := by
  unfold SHA1
  simp [be32]

/-! ### The line loop of `pwned_count` -/

theorem split_lines_ne_nil (s : Str) : split_lines s ≠ [] := by
  cases s with
  | nil => simp [split_lines]
  | cons c cs =>
    unfold split_lines
    split_ifs
    · simp
    · split <;> simp

/-- The first line of a body and the lines after it. -/
theorem split_lines_eq (s : Str) :
    split_lines s
      = s.takeWhile (fun x => x != 10)
        :: (if 10 ∈ s then split_lines ((s.dropWhile (fun x => x != 10)).drop 1) else []) := by
  induction s with
  | nil => simp [split_lines]
  | cons c cs ih =>
    rw [split_lines]
    by_cases h : c = 10
    · subst h; simp
    · have h2 : (c != 10) = true := by simp [h]
      have h3 : (10 ∈ c :: cs) ↔ 10 ∈ cs := by simp [Ne.symm h]
      rw [if_neg h, ih]
      simp only [List.takeWhile_cons, h2, if_true, List.dropWhile_cons, h3]

theorem take_length_takeWhile (p : Nat → Bool) (l : Str) :
    l.take (l.takeWhile p).length = l.takeWhile p := by
  induction l with
  | nil => simp
  | cons x xs ih =>
    by_cases h : p x = true
    · simp [List.takeWhile_cons, h, ih]
    · simp [List.takeWhile_cons, h]

theorem drop_length_takeWhile (p : Nat → Bool) (l : Str) :
    l.drop (l.takeWhile p).length = l.dropWhile p := by
  induction l with
  | nil => simp
  | cons x xs ih =>
    by_cases h : p x = true
    · simp [List.takeWhile_cons, List.dropWhile_cons, h, ih]
    · simp [List.takeWhile_cons, List.dropWhile_cons, h]

theorem length_takeWhile_lt (c : Nat) (l : Str) (h : c ∈ l) :
    (l.takeWhile (fun x => x != c)).length < l.length := by
  induction l with
  | nil => simp at h
  | cons x xs ih =>
    by_cases hx : x = c
    · simp [List.takeWhile_cons, hx]
    · have h2 : (x != c) = true := by simp [hx]
      have : c ∈ xs := by
        rcases List.mem_cons.mp h with h | h
        · exact absurd h.symm hx
        · exact h
      simp only [List.takeWhile_cons, h2, if_true, List.length_cons]
      have := ih this
      omega

/-- What the loop body does with one line, in the words of the reference. -/
theorem match_line_eq (line suffix : Str) :
    match_line line suffix
      = if (!(strip_cr line).isEmpty && (strip_cr line).contains 58) = true
            ∧ (line_key (strip_cr line) == suffix) = true
        then some (true, line_count (strip_cr line)) else none := by
  unfold match_line
  by_cases he : line.isEmpty = true
  · have : line = [] := by simpa using he
    subst this
    simp [strip_cr]
  · have hs : (if ¬ line.isEmpty = true ∧ line.getLast? = some 13 then line.dropLast else line)
        = strip_cr line := by
      unfold strip_cr
      by_cases h13 : line.getLast? = some 13
      · simp [he, h13]
      · simp [h13]
    rw [if_pos he, hs]
    generalize strip_cr line = l
    unfold find
    dsimp only
    rw [find_from_single]
    by_cases hc : 58 ∈ l
    · have hne : l.isEmpty = false := by
        cases l with
        | nil => simp at hc
        | cons _ _ => rfl
      have hcont : l.contains 58 = true := by simpa using hc
      simp only [hc, if_true, zero_add, substr, List.drop_zero, take_length_takeWhile, hne,
        Bool.not_false, hcont, Bool.and_self, true_and, line_key, beq_iff_eq]
      by_cases hk : List.takeWhile (fun x => x != 58) l = suffix
      · simp only [hk, if_true, line_count, line_value]
        rw [← hk, ← List.drop_drop, drop_length_takeWhile]
        cases stoi (List.drop 1 (List.dropWhile (fun x => x != 58) l)) <;> rfl
      · simp only [hk, if_false]
    · have hcont : l.contains 58 = false := by simpa using hc
      simp [hc, hcont]

/-- The reference lookup, line by line. -/
theorem ref_lines_cons (l : Str) (ls : List Str) (suffix : Str) :
    ref_lines (l :: ls) suffix
      = match match_line l suffix with
        | some r => r
        | none => ref_lines ls suffix := by
  rw [match_line_eq]
  unfold ref_lines
  by_cases hk : (!(strip_cr l).isEmpty && (strip_cr l).contains 58) = true
  · by_cases hs : (line_key (strip_cr l) == suffix) = true
    · simp only [List.map_cons, List.filter_cons, hk, if_true, List.find?_cons, hs, and_self]
    · simp only [List.map_cons, List.filter_cons, hk, if_true, List.find?_cons, hs, and_false,
        if_false]
      simp [hs]
  · simp only [List.map_cons, List.filter_cons, hk, false_and, if_false]
    simp

theorem ref_lines_nil (suffix : Str) : ref_lines [] suffix = (false, 0) := rfl

/-- With enough fuel the loop returns, and returns what the reference finds in
the part of the body it has not read yet. -/
theorem scan_lines_eq (body suffix : Str) (fuel start : Nat) (hs : start ≤ body.length)
    (hf : body.length - start < fuel) :
    scan_lines body suffix fuel start
      = Outcome.ret (ref_lines (split_lines (body.drop start)) suffix) := by
  induction fuel generalizing start with
  | zero => omega
  | succ fuel ih =>
    unfold scan_lines
    rw [find_from_single, split_lines_eq (body.drop start), ref_lines_cons]
    by_cases hnl : 10 ∈ body.drop start
    · have hk := length_takeWhile_lt 10 (body.drop start) hnl
      rw [List.length_drop] at hk
      simp only [hnl, if_true, substr, Nat.add_sub_cancel_left, take_length_takeWhile]
      cases hm : match_line (List.takeWhile (fun x => x != 10) (List.drop start body)) suffix with
      | some r => rfl
      | none =>
        simp only
        rw [ih _ (by omega) (by omega)]
        congr 2
        rw [← drop_length_takeWhile, List.drop_drop, List.drop_drop]
        congr 1
    · simp only [hnl, if_false]
      have ht : List.takeWhile (fun x => x != 10) (List.drop start body) = List.drop start body := by
        rw [List.takeWhile_eq_self_iff]
        intro x hx
        have : x ≠ 10 := fun h => hnl (h ▸ hx)
        simpa using this
      rw [ht]
      cases hm : match_line (List.drop start body) suffix with
      | some r => rfl
      | none => rfl

/-- The local matching step always returns, and returns the reference result. -/
theorem match_body_eq (body suffix : Str) :
    match_body body suffix = Outcome.ret (ref_match body suffix) := by
  have hr : ref_match body suffix = ref_lines (split_lines body) suffix := rfl
  unfold match_body
  rw [hr]
  have := scan_lines_eq body suffix (body.length + 1) 0 (Nat.zero_le _) (by omega)
  simpa using this

/-- `pwned_count`, outcome by outcome of the transport. -/
theorem pwned_count_eq (net : Transport) (password : Str) :
    pwned_count net password
      = if net.init_ok = false then ([], Outcome.throw "curl_easy_init failed")
        else if (net.perform (range_request password)).rc ≠ CURLE_OK then
          ([range_request password], Outcome.throw "curl perform failed")
        else if (net.perform (range_request password)).http_code ≠ 200 then
          ([range_request password], Outcome.throw
            ("HTTP status " ++ toString (net.perform (range_request password)).http_code))
        else ([range_request password], Outcome.ret
            (ref_match (net.perform (range_request password)).body (digest_suffix password))) := by
  unfold pwned_count http_get_range
  simp only [← match_body_eq, range_request, digest_pfx, digest_suffix]
  generalize net.perform
    { url := lit "https://api.pwnedpasswords.com/range/" ++ substr (sha1_hex_upper password) 0 5
      useragent := lit "PiPwChecker-Cpp/1.0 (Raspberry Pi)" } = resp
  by_cases h1 : net.init_ok = true
  · by_cases h2 : resp.rc = CURLE_OK
    · by_cases h3 : resp.http_code = 200
      · simp [h1, h2, h3]
      · simp [h1, h2, h3]
    · simp [h1, h2]
  · simp [h1]

theorem digest_suffix_chars (password : Str) (c : Nat) (hc : c ∈ digest_suffix password) :
    (48 ≤ c ∧ c ≤ 57) ∨ (65 ≤ c ∧ c ≤ 70) :=
  sha1_hex_upper_chars password c (List.mem_of_mem_drop hc)

theorem digest_suffix_length (password : Str) : (digest_suffix password).length = 35 := by
  simp [digest_suffix, sha1_hex_upper_length]

/-- A body that is the single line `<suffix>:3`. -/
theorem ref_match_single (suffix : Str) (h10 : 10 ∉ suffix) (h58 : 58 ∉ suffix) :
    ref_match (suffix ++ lit ":3") suffix = (true, 3) := by
  have hl : lit ":3" = [58, 51] := by decide
  have hr : ref_match (suffix ++ lit ":3") suffix
      = ref_lines (split_lines (suffix ++ lit ":3")) suffix := rfl
  have hno : 10 ∉ suffix ++ [58, 51] := by simp [h10]
  have ht : List.takeWhile (fun x => x != 10) (suffix ++ [58, 51]) = suffix ++ [58, 51] := by
    rw [List.takeWhile_eq_self_iff]
    intro x hx
    have : x ≠ 10 := fun h => hno (h ▸ hx)
    simpa using this
  have hs : strip_cr (suffix ++ [58, 51]) = suffix ++ [58, 51] := by
    have : (suffix ++ [58, 51]).getLast? = some 51 := by
      rw [show suffix ++ [58, 51] = (suffix ++ [58]) ++ [51] by simp, List.getLast?_concat]
    simp [strip_cr, this]
  have hp : ∀ a ∈ suffix, (fun x => x != 58) a = true := by
    intro a ha
    have : a ≠ 58 := fun h => h58 (h ▸ ha)
    simpa using this
  have hk : line_key (suffix ++ [58, 51]) = suffix := by
    unfold line_key
    rw [List.takeWhile_append_of_pos hp]
    simp [List.takeWhile_cons]
  have hv : line_value (suffix ++ [58, 51]) = [51] := by
    unfold line_value
    rw [List.dropWhile_append_of_pos hp]
    simp [List.dropWhile_cons]
  have hc : line_count (suffix ++ [58, 51]) = 3 := by
    unfold line_count
    rw [hv]
    decide
  rw [hr, hl, split_lines_eq, ht, ref_lines_cons, match_line_eq, hs, hk, hc]
  simp

theorem pwned_count_ok (body password : Str) :
    (pwned_count (ok_transport body) password).2
      = Outcome.ret (ref_match body (digest_suffix password)) := by
  rw [pwned_count_eq]
  simp [ok_transport]

theorem ref_match_of_find (body suffix l : Str)
    (hl : (response_lines body).find? (fun l => line_key l == suffix) = some l) :
    ref_match body suffix = (true, line_count l) := by
  unfold ref_match
  rw [hl]

theorem ref_match_of_none (body suffix : Str)
    (hl : (response_lines body).find? (fun l => line_key l == suffix) = none) :
    ref_match body suffix = (false, 0) := by
  unfold ref_match
  rw [hl]

theorem stoi_no_digit (cnt : Str) (h : ∀ c ∈ cnt, isdigit c = false) : stoi cnt = none := by
  have hsub : ∀ s : Str, (∀ c ∈ s, c ∈ cnt) → s.takeWhile isdigit = [] := by
    intro s hs
    cases s with
    | nil => rfl
    | cons x xs => simp [List.takeWhile_cons, h x (hs x (List.mem_cons_self _ _))]
  have h1 : ∀ c ∈ cnt.dropWhile isspace, c ∈ cnt :=
    fun c hc => (List.dropWhile_sublist _).subset hc
  unfold stoi
  simp only
  rw [hsub _ (by
    intro c hc
    split_ifs at hc
    · exact h1 c (List.mem_of_mem_drop hc)
    · exact h1 c hc)]
  rfl

/-! ## Facts about the penalty rules and the reasons -/

/-! ### Windows and lowercasing -/

/-- The windows of length `L` of `d` are its infixes of length `L`. -/
theorem window_iff (d w : Str) (L : Nat) :
    (∃ i ∈ List.range (d.length + 1 - L), w = substr d i L) ↔ (w <:+: d ∧ w.length = L) := by
  constructor
  · rintro ⟨i, hi, rfl⟩
    rw [List.mem_range] at hi
    refine ⟨?_, ?_⟩
    · exact (List.take_prefix _ _).isInfix.trans (List.drop_suffix _ _).isInfix
    · simp only [substr, List.length_take, List.length_drop]
      omega
  · rintro ⟨⟨a, b, rfl⟩, hL⟩
    refine ⟨a.length, ?_, ?_⟩
    · rw [List.mem_range]
      simp only [List.length_append]
      omega
    · simp [substr, ← hL]

theorem any_window (s d : Str) (L : Nat) :
    (List.range (d.length + 1 - L)).any (fun i => (find s (substr d i L)).isSome) = true
      ↔ ∃ w, w.length = L ∧ w <:+: d ∧ w <:+: s := by
  simp only [List.any_eq_true, find_isSome]
  constructor
  · rintro ⟨i, hi, hin⟩
    obtain ⟨h1, h2⟩ := (window_iff d _ L).mp ⟨i, hi, rfl⟩
    exact ⟨_, h2, h1, hin⟩
  · rintro ⟨w, hL, hd, hs⟩
    obtain ⟨i, hi, rfl⟩ := (window_iff d w L).mpr ⟨hd, hL⟩
    exact ⟨i, hi, hs⟩

theorem tolower_idem (c : Nat) : tolower (tolower c) = tolower c := by
  unfold tolower isupper
  split_ifs <;> first | rfl | (simp_all; omega)

theorem lower_lower (s : Str) : lower (lower s) = lower s := by
  simp [lower, tolower_idem]

theorem case_free_of_not_alpha (c : Nat) (h : islower c = false) (h2 : isupper c = false) :
    case_free c := by
  intro x
  unfold tolower
  simp only [islower, isupper, Bool.and_eq_false_iff, decide_eq_false_iff_not, not_le] at h h2
  by_cases hx : isupper x = true
  · simp only [hx, if_true]
    simp only [isupper, Bool.and_eq_true, decide_eq_true_eq] at hx
    constructor <;> intro <;> omega
  · simp only [hx]
    simp

theorem map_tolower_eq (w v : Str) (hw : ∀ c ∈ w, case_free c) (h : v.map tolower = w) :
    v = w := by
  induction v generalizing w with
  | nil => simpa using h.symm ▸ rfl
  | cons x xs ih =>
    cases w with
    | nil => simp at h
    | cons c cs =>
      simp only [List.map_cons, List.cons.injEq] at h
      have hx : x = c := (hw c (List.mem_cons_self _ _) x).mp h.1
      have := ih cs (fun d hd => hw d (List.mem_cons_of_mem _ hd)) h.2
      rw [hx, this]

/-- Text without letters occurs in the lowercased password exactly when it
occurs in the password. -/
theorem infix_lower_iff (w pw : Str) (hw : ∀ c ∈ w, case_free c) :
    w <:+: lower pw ↔ w <:+: pw := by
  constructor
  · rintro ⟨a, b, h⟩
    unfold lower at h
    obtain ⟨l1, b', hpw, h1, hb⟩ := List.map_eq_append_iff.mp h.symm
    obtain ⟨a', w', hl1, ha, hw'⟩ := List.map_eq_append_iff.mp h1
    have := map_tolower_eq w w' hw hw'
    subst this
    exact ⟨a', b', by rw [hpw, hl1]⟩
  · intro h
    have hm : w.map tolower = w := by
      conv_rhs => rw [← List.map_id w]
      apply List.map_congr_left
      intro c hc
      exact (hw c hc c).mpr rfl
    have := List.IsInfix.map tolower h
    rwa [hm] at this

theorem case_free_of_mem_digits (w : Str)
    (hw : w <:+: lit "0123456789" ∨ w <:+: lit "9876543210") : ∀ c ∈ w, case_free c := by
  have h1 : ∀ c ∈ lit "0123456789", islower c = false ∧ isupper c = false := by decide
  have h2 : ∀ c ∈ lit "9876543210", islower c = false ∧ isupper c = false := by decide
  intro c hc
  rcases hw with hw | hw
  · exact case_free_of_not_alpha c (h1 c (hw.subset hc)).1 (h1 c (hw.subset hc)).2
  · exact case_free_of_not_alpha c (h2 c (hw.subset hc)).1 (h2 c (hw.subset hc)).2

/-! ### When each penalty rule fires -/

theorem site_hit_iff (low site_hint : Str) :
    site_hit low site_hint = true ↔ site_hint ≠ [] ∧ lower site_hint <:+: low := by
  simp [site_hit, find_isSome]

theorem repeat_hit_iff (pw : Str) :
    repeat_hit pw = true
      ↔ ∃ i, i + 2 < pw.length ∧ pw.getD i 0 = pw.getD (i + 1) 0
          ∧ pw.getD i 0 = pw.getD (i + 2) 0 := by
  simp only [repeat_hit, List.any_eq_true, List.mem_range, decide_eq_true_eq]
  constructor
  · rintro ⟨i, hi, h⟩
    exact ⟨i, by omega, h⟩
  · rintro ⟨i, hi, h⟩
    exact ⟨i, by omega, h⟩

theorem has_seq_digits_iff (s : Str) :
    has_seq_digits s 4 = true
      ↔ ∃ w, w.length = 4 ∧ w <:+: s
          ∧ (w <:+: lit "0123456789" ∨ w <:+: lit "9876543210") := by
  unfold has_seq_digits
  simp only []
  by_cases hlen : s.length < 4
  · simp only [hlen, if_true, Bool.false_eq_true, false_iff]
    rintro ⟨w, hw, hin, _⟩
    have := hin.length_le
    omega
  · simp only [hlen, if_false]
    by_cases hA : (List.range ((lit "0123456789").length + 1 - 4)).any
        (fun i => (find s (substr (lit "0123456789") i 4)).isSome) = true
    · simp only [hA, if_true, true_iff]
      obtain ⟨w, h1, h2, h3⟩ := (any_window s _ 4).mp hA
      exact ⟨w, h1, h3, Or.inl h2⟩
    · by_cases hB : (List.range ((lit "9876543210").length + 1 - 4)).any
          (fun i => (find s (substr (lit "9876543210") i 4)).isSome) = true
      · simp only [hA, hB, if_true, if_false, Bool.false_eq_true, true_iff]
        obtain ⟨w, h1, h2, h3⟩ := (any_window s _ 4).mp hB
        exact ⟨w, h1, h3, Or.inr h2⟩
      · simp only [hA, hB, Bool.false_eq_true, if_false, false_iff]
        rintro ⟨w, h1, h2, h3 | h3⟩
        · exact hA ((any_window s _ 4).mpr ⟨w, h1, h3, h2⟩)
        · exact hB ((any_window s _ 4).mpr ⟨w, h1, h3, h2⟩)

theorem row_walk_iff (low r : Str) :
    row_walk low 4 r = true
      ↔ ∃ w, w.length = 4 ∧ w <:+: low ∧ (w <:+: r ∨ w <:+: r.reverse) := by
  unfold row_walk
  simp only []
  by_cases hA : (List.range (r.length + 1 - 4)).any
      (fun i => (find low (substr r i 4)).isSome) = true
  · simp only [hA, if_true, true_iff]
    obtain ⟨w, h1, h2, h3⟩ := (any_window low _ 4).mp hA
    exact ⟨w, h1, h3, Or.inl h2⟩
  · simp only [hA, Bool.false_eq_true, if_false]
    rw [any_window]
    constructor
    · rintro ⟨w, h1, h2, h3⟩
      exact ⟨w, h1, h3, Or.inr h2⟩
    · rintro ⟨w, h1, h2, h3 | h3⟩
      · exact absurd ((any_window low _ 4).mpr ⟨w, h1, h3, h2⟩) hA
      · exact ⟨w, h1, h3, h2⟩

theorem has_keyboard_walk_iff (s : Str) :
    has_keyboard_walk s 4 = true
      ↔ ∃ w, w.length = 4 ∧ w <:+: lower s
          ∧ ∃ r ∈ rows, w <:+: r ∨ w <:+: r.reverse := by
  unfold has_keyboard_walk
  simp only [List.any_eq_true, row_walk_iff]
  constructor
  · rintro ⟨r, hr, w, h1, h2, h3⟩
    exact ⟨w, h1, h2, r, hr, h3⟩
  · rintro ⟨w, h1, h2, r, hr, h3⟩
    exact ⟨r, hr, w, h1, h2, h3⟩

set_option maxRecDepth 100000 in
theorem to_string_year : ∀ k, k < 41 → to_string (1990 + k) = four_digits (1990 + k) := by
  decide

theorem four_digits_case_free (y : Nat) : ∀ c ∈ four_digits y, case_free c := by
  intro c hc
  have hr : 48 ≤ c ∧ c ≤ 57 := by
    simp only [four_digits, List.mem_cons, List.mem_singleton, List.not_mem_nil, or_false] at hc
    rcases hc with h | h | h | h <;> omega
  apply case_free_of_not_alpha
  · simp only [islower, Bool.and_eq_false_iff, decide_eq_false_iff_not]; omega
  · simp only [isupper, Bool.and_eq_false_iff, decide_eq_false_iff_not]; omega

theorem year_hit_iff (low : Str) :
    year_hit low = true ↔ ∃ y, 1990 ≤ y ∧ y ≤ 2030 ∧ four_digits y <:+: low := by
  simp only [year_hit, List.any_eq_true, List.mem_map, List.mem_range, find_isSome]
  constructor
  · rintro ⟨y, ⟨k, hk, rfl⟩, hin⟩
    rw [to_string_year k hk] at hin
    exact ⟨1990 + k, by omega, by omega, hin⟩
  · rintro ⟨y, h1, h2, hin⟩
    refine ⟨y, ⟨y - 1990, by omega, by omega⟩, ?_⟩
    have := to_string_year (y - 1990) (by omega)
    rw [show 1990 + (y - 1990) = y by omega] at this
    rwa [this]

/-! ### The shape of the reasons -/

theorem reasons_eq (pw site_hint : Str) :
    (analyze_password pw site_hint).reasons
      = len_reasons (static_cast_int pw.length)
        ++ fired (decide (count_variety pw ≤ 1)) R_variety
        ++ fired (common_hit (lower pw)) R_common ++ fired (repeat_hit pw) R_repeat
        ++ fired (has_seq_digits (lower pw) 4) R_seq
        ++ fired (has_keyboard_walk (lower pw) 4) R_walk
        ++ fired (year_hit (lower pw)) R_year
        ++ fired (site_hit (lower pw) site_hint) R_site := by
  simp only [analyze_password, run_rules_eq]

theorem fired_sublist (b : Bool) (r : String) : List.Sublist (fired b r) [r] := by
  cases b <;> simp [fired]

theorem len_reasons_sublist (length : Int) :
    List.Sublist (len_reasons length) [R_too_short, R_short] := by
  unfold len_reasons
  split_ifs <;> simp

theorem reasons_sublist (pw site_hint : Str) :
    List.Sublist (analyze_password pw site_hint).reasons all_reasons := by
  rw [reasons_eq]
  have : all_reasons = [R_too_short, R_short] ++ [R_variety] ++ [R_common] ++ [R_repeat]
      ++ [R_seq] ++ [R_walk] ++ [R_year] ++ [R_site] := rfl
  rw [this]
  exact ((((((len_reasons_sublist _).append (fired_sublist _ _)).append
    (fired_sublist _ _)).append (fired_sublist _ _)).append (fired_sublist _ _)).append
    (fired_sublist _ _)).append (fired_sublist _ _) |>.append (fired_sublist _ _)

theorem all_reasons_nodup : all_reasons.Nodup := by decide

theorem reasons_nodup (pw site_hint : Str) : (analyze_password pw site_hint).reasons.Nodup :=
  (reasons_sublist pw site_hint).nodup all_reasons_nodup

theorem count_of_mem (pw site_hint : Str) (r : String)
    (h : r ∈ (analyze_password pw site_hint).reasons) :
    (analyze_password pw site_hint).reasons.count r = 1 :=
  List.count_eq_one_of_mem (reasons_nodup pw site_hint) h

theorem run_rules_split (pw site_hint : Str) :
    run_rules pw site_hint = rule_site (lower pw) site_hint (run_rules_before_site pw) := rfl

theorem static_cast_int_of_lt (n : Nat) (h : n < 2 ^ 31) : static_cast_int n = n := by
  have h32 : n % 2 ^ 32 = n := Nat.mod_eq_of_lt (by omega)
  simp only [static_cast_int, h32, if_pos h]

theorem too_short_mem (pw site_hint : Str) :
    R_too_short ∈ (analyze_password pw site_hint).reasons
      ↔ (analyze_password pw site_hint).length < 8 := by
  rw [mem_reasons]; simp [R_common, R_too_short, R_short, R_variety, R_repeat, R_seq, R_walk,
    R_year, R_site]

theorem short_mem (pw site_hint : Str) :
    R_short ∈ (analyze_password pw site_hint).reasons
      ↔ 8 ≤ (analyze_password pw site_hint).length
          ∧ (analyze_password pw site_hint).length < 12 := by
  rw [mem_reasons]; simp [R_common, R_too_short, R_short, R_variety, R_repeat, R_seq, R_walk,
    R_year, R_site]

theorem variety_mem (pw site_hint : Str) :
    R_variety ∈ (analyze_password pw site_hint).reasons
      ↔ (analyze_password pw site_hint).variety ≤ 1 := by
  rw [mem_reasons]; simp [R_common, R_too_short, R_short, R_variety, R_repeat, R_seq, R_walk,
    R_year, R_site]

theorem suggest_eq (length variety : Int) (reasons : List String) :
    suggest length variety reasons
      = ((checklist length variety reasons).filter (fun c => c.1)).map (fun c => c.2) := by
  unfold suggest checklist
  simp only [List.contains_eq_any_beq, List.any_eq_true, beq_iff_eq, exists_eq_right]
  by_cases h1 : length < 14 <;> by_cases h2 : variety < 3 <;> by_cases h3 : R_common ∈ reasons
    <;> by_cases h4 : R_site ∈ reasons <;> by_cases h5 : R_year ∈ reasons
    <;> by_cases h6 : R_seq ∈ reasons <;> simp [h1, h2, h3, h4, h5, h6]

/-- Two texts with no byte in common that both occur in `l` occur at places
that do not overlap. -/
theorem disjoint_infix_length (l w1 w2 : Str) (h1 : w1 <:+: l) (h2 : w2 <:+: l)
    (hd : ∀ c ∈ w1, c ∉ w2) : w1.length + w2.length ≤ l.length := by
  obtain ⟨a1, b1, e1⟩ := h1
  obtain ⟨a2, b2, e2⟩ := h2
  have l1 := congrArg List.length e1
  have l2 := congrArg List.length e2
  simp only [List.length_append] at l1 l2
  by_cases z1 : w1.length = 0
  · omega
  by_cases z2 : w2.length = 0
  · omega
  by_cases c1 : a1.length + w1.length ≤ a2.length
  · omega
  · by_cases c2 : a2.length + w2.length ≤ a1.length
    · omega
    · exfalso
      have hj : ∃ j, a1.length ≤ j ∧ j < a1.length + w1.length ∧ a2.length ≤ j
          ∧ j < a2.length + w2.length := by
        rcases Nat.le_total a1.length a2.length with hle | hle
        · exact ⟨a2.length, by omega, by omega, by omega, by omega⟩
        · exact ⟨a1.length, by omega, by omega, by omega, by omega⟩
      obtain ⟨j, j1, j2, j3, j4⟩ := hj
      have g1 : l[j]? = w1[j - a1.length]? := by
        rw [← e1, List.getElem?_append_left (by rw [List.length_append]; omega),
          List.getElem?_append_right j1]
      have g2 : l[j]? = w2[j - a2.length]? := by
        rw [← e2, List.getElem?_append_left (by rw [List.length_append]; omega),
          List.getElem?_append_right j3]
      have k1 : j - a1.length < w1.length := by omega
      have k2 : j - a2.length < w2.length := by omega
      rw [List.getElem?_eq_getElem k1] at g1
      rw [g1, List.getElem?_eq_getElem k2] at g2
      have m1 : w1[j - a1.length] ∈ w1 := List.getElem_mem _
      have m2 : w2[j - a2.length] ∈ w2 := List.getElem_mem _
      rw [Option.some.injEq] at g2
      rw [← g2] at m2
      exact hd _ m1 m2

theorem rows_lowercase (w : Str)
    (hw : ∃ r ∈ rows, w <:+: r ∨ w <:+: r.reverse) : ∀ c ∈ w, islower c = true := by
  have hr : ∀ r ∈ rows, ∀ c ∈ r, islower c = true := by decide
  obtain ⟨r, hmem, h | h⟩ := hw
  · exact fun c hc => hr r hmem c (h.subset hc)
  · exact fun c hc => hr r hmem c (List.mem_reverse.mp (h.subset hc))

theorem four_digits_isdigit (y : Nat) : ∀ c ∈ four_digits y, isdigit c = true := by
  intro c hc
  simp only [four_digits, List.mem_cons, List.mem_singleton, List.not_mem_nil, or_false] at hc
  simp only [isdigit, Bool.and_eq_true, decide_eq_true_eq]
  rcases hc with h | h | h | h <;> omega

/-- The keyboard-walk and the year rule fire together only on a password of at
least 8 bytes with a letter and a digit. -/
theorem walk_and_year (pw : Str) (hw : has_keyboard_walk (lower pw) 4 = true)
    (hy : year_hit (lower pw) = true) : 8 ≤ pw.length ∧ 2 ≤ count_variety pw := by
  rw [has_keyboard_walk_iff, lower_lower] at hw
  rw [year_hit_iff] at hy
  obtain ⟨w, hw4, hwin, hrow⟩ := hw
  obtain ⟨y, _, _, hyin⟩ := hy
  have hlow := rows_lowercase w hrow
  have hdig := four_digits_isdigit y
  constructor
  · have := disjoint_infix_length (lower pw) w (four_digits y) hwin hyin (by
      intro c hc1 hc2
      have a := hlow c hc1
      have b := hdig c hc2
      simp only [islower, isdigit, Bool.and_eq_true, decide_eq_true_eq] at a b
      omega)
    simp only [hw4, four_digits, List.length_cons, List.length_nil, lower, List.length_map]
      at this
    omega
  · have hletter : any_lower pw = true ∨ any_upper pw = true := by
      cases w with
      | nil => simp at hw4
      | cons c cs =>
        have hc : c ∈ lower pw := hwin.subset (List.mem_cons_self _ _)
        have hcl := hlow c (List.mem_cons_self _ _)
        simp only [lower, List.mem_map] at hc
        obtain ⟨x, hx, hxc⟩ := hc
        by_cases hu : isupper x = true
        · right
          simp only [any_upper, List.any_eq_true]
          exact ⟨x, hx, hu⟩
        · left
          simp only [tolower, hu, Bool.false_eq_true, if_false] at hxc
          simp only [any_lower, List.any_eq_true]
          exact ⟨x, hx, by rw [hxc]; exact hcl⟩
    have hdigit : any_digit pw = true := by
      have hyp := (infix_lower_iff _ _ (four_digits_case_free y)).mp hyin
      simp only [any_digit, List.any_eq_true]
      exact ⟨48 + y / 1000 % 10, hyp.subset (by simp [four_digits]),
        hdig _ (by simp [four_digits])⟩
    unfold count_variety
    rcases hletter with h | h
    · simp only [h, hdigit, if_true]; split_ifs <;> omega
    · simp only [h, hdigit, if_true]; split_ifs <;> omega

theorem static_cast_int_le (n : Nat) : static_cast_int n ≤ n := by
  unfold static_cast_int
  have := Nat.mod_le n (2 ^ 32)
  split_ifs <;> omega

theorem len_bonus_bounds (length : Int) : 0 ≤ len_bonus length ∧ len_bonus length ≤ 3 := by
  unfold len_bonus; split_ifs <;> omega

theorem var_bonus_bounds (variety : Int) : 0 ≤ var_bonus variety ∧ var_bonus variety ≤ 3 := by
  unfold var_bonus; split_ifs <;> omega

theorem penalty_nonpos (b : Bool) (delta : Int) (hd : delta ≤ 0) : penalty b delta ≤ 0 := by
  cases b <;> simp [penalty, hd]

theorem penalty_eq_zero (b : Bool) (delta : Int) (hd : delta ≠ 0) (h : penalty b delta = 0) :
    b = false := by
  cases b
  · rfl
  · simp [penalty] at h; exact absurd h hd

theorem lower_eq_ascii_lowercase (s : Str) : lower s = ascii_lowercase s := by
  unfold lower ascii_lowercase
  apply List.map_congr_left
  intro c _
  simp only [tolower, isupper, Bool.and_eq_true, decide_eq_true_eq]

/-- C1: the score of `analyze_password pw h` is `L + V - 2c - r - d - k - y - s`,
where `L` is 0, 1, 2 or 3 as the reported length is below 8, in [8,12), in
[12,16) or at least 16, `V` is 0, 1, 2 or 3 as the variety is at most 1, is 2,
is 3 or is 4 (the variety is never above 4), and `c`, `r`, `d`, `k`, `y`, `s`
are 1 or 0 as the common-pattern, repeated-character, digit-sequence,
keyboard-walk, year and site-reuse reasons occur in the returned reasons or
not.  The reported length is the size of the password as the `int` the code
computes, which is the size itself for every password below 2^31 bytes. -/
theorem C1_score_formula (pw h : Str) :
    (analyze_password pw h).score
        = (if (analyze_password pw h).length < 8 then 0
            else if (analyze_password pw h).length < 12 then 1
            else if (analyze_password pw h).length < 16 then 2 else 3)
          + (if (analyze_password pw h).variety ≤ 1 then 0
            else if (analyze_password pw h).variety = 2 then 1
            else if (analyze_password pw h).variety = 3 then 2 else 3)
          - 2 * (if R_common ∈ (analyze_password pw h).reasons then 1 else 0)
          - (if R_repeat ∈ (analyze_password pw h).reasons then 1 else 0)
          - (if R_seq ∈ (analyze_password pw h).reasons then 1 else 0)
          - (if R_walk ∈ (analyze_password pw h).reasons then 1 else 0)
          - (if R_year ∈ (analyze_password pw h).reasons then 1 else 0)
          - (if R_site ∈ (analyze_password pw h).reasons then 1 else 0)
      ∧ (analyze_password pw h).variety ≤ 4
      ∧ (analyze_password pw h).length = static_cast_int pw.length
      ∧ (pw.length < 2 ^ 31 → (analyze_password pw h).length = pw.length) := by
  refine ⟨?_, (count_variety_bounds pw).2, rfl, ?_⟩
  · rw [score_eq]
    simp only [common_mem, repeat_mem, seq_mem, walk_mem, year_mem, site_mem, len_bonus,
      var_bonus, penalty]
    cases common_hit (lower pw) <;> cases repeat_hit pw <;> cases has_seq_digits (lower pw) 4
      <;> cases has_keyboard_walk (lower pw) 4 <;> cases year_hit (lower pw)
      <;> cases site_hit (lower pw) h <;> simp <;> ring
  · intro hlt
    have h32 : pw.length % 2 ^ 32 = pw.length := Nat.mod_eq_of_lt (by omega)
    simp only [analyze_password, static_cast_int, h32, if_pos hlt]

/-- C2: the rating is decided by the score alone, one rating per score: Weak
iff score <= 1, Fair iff 2 <= score <= 3, Good iff 4 <= score <= 5, Strong iff
score >= 6; two analyses with the same score have the same rating, and a
higher score never has a lower rating in the order Weak < Fair < Good < Strong. -/
theorem C2_rating_by_score (pw h : Str) :
    ((analyze_password pw h).rating = "Weak" ↔ (analyze_password pw h).score ≤ 1)
      ∧ ((analyze_password pw h).rating = "Fair"
          ↔ 2 ≤ (analyze_password pw h).score ∧ (analyze_password pw h).score ≤ 3)
      ∧ ((analyze_password pw h).rating = "Good"
          ↔ 4 ≤ (analyze_password pw h).score ∧ (analyze_password pw h).score ≤ 5)
      ∧ ((analyze_password pw h).rating = "Strong" ↔ 6 ≤ (analyze_password pw h).score)
      ∧ (∀ pw2 h2 : Str, (analyze_password pw h).score = (analyze_password pw2 h2).score
          → (analyze_password pw h).rating = (analyze_password pw2 h2).rating)
      ∧ (∀ pw2 h2 : Str, (analyze_password pw h).score ≤ (analyze_password pw2 h2).score
          → rating_rank (analyze_password pw h).rating
              ≤ rating_rank (analyze_password pw2 h2).rating) := by
  have hr : ∀ p q : Str, (analyze_password p q).rating = bucket (analyze_password p q).score :=
    fun _ _ => rfl
  refine ⟨?_, ?_, ?_, ?_, ?_, ?_⟩
  · rw [hr]; unfold bucket; split_ifs <;> simp <;> omega
  · rw [hr]; unfold bucket; split_ifs <;> simp <;> omega
  · rw [hr]; unfold bucket; split_ifs <;> simp <;> omega
  · rw [hr]; unfold bucket; split_ifs <;> simp <;> omega
  · intro pw2 h2 he; rw [hr, hr, he]
  · intro pw2 h2 hle
    rw [hr, hr]
    generalize (analyze_password pw h).score = s1 at hle
    generalize (analyze_password pw2 h2).score = s2 at hle
    unfold bucket
    split_ifs <;> simp [rating_rank] <;> omega

/-- C3: the variety lies in [0,4] and is the number of the four classes
lowercase letter (`a`..`z`), uppercase letter (`A`..`Z`), digit (`0`..`9`) and
punctuation that is not alphanumeric which have a byte in the password; so it
is 0 for the empty password. -/
theorem C3_variety_counts_classes (pw h : Str) :
    0 ≤ (analyze_password pw h).variety ∧ (analyze_password pw h).variety ≤ 4
      ∧ (analyze_password pw h).variety
          = (if ∃ c ∈ pw, 97 ≤ c ∧ c ≤ 122 then 1 else 0)
            + (if ∃ c ∈ pw, 65 ≤ c ∧ c ≤ 90 then 1 else 0)
            + (if ∃ c ∈ pw, 48 ≤ c ∧ c ≤ 57 then 1 else 0)
            + (if ∃ c ∈ pw, ispunct c = true ∧ isalnum c = false then 1 else 0)
      ∧ (analyze_password [] h).variety = 0 := by
  refine ⟨(count_variety_bounds pw).1, (count_variety_bounds pw).2, ?_, rfl⟩
  show count_variety pw = _
  unfold count_variety any_lower any_upper any_digit any_special
  simp only [List.any_eq_true, islower, isupper, isdigit, Bool.and_eq_true, decide_eq_true_eq,
    Bool.not_eq_true']

/-- C4: for every password and response body the local matching step of
`pwned_count` returns, and returns what the reference gives: the body is split
on line feeds (a last line without terminator counts), one trailing carriage
return is removed from each line, blank lines and lines without a colon are
skipped; the first remaining line whose text before its first colon is the
35-character digest suffix gives `(true, its count)`, and when no line matches
the result is `(false, 0)`.  So does `pwned_count` on a transport that succeeds
with that body.  A body `<suffix>:3` gives `(true, 3)`, the empty body gives
`(false, 0)`, and `found = false` implies `count = 0`. -/
theorem C4_local_match_is_reference (password body : Str) :
    match_body body (digest_suffix password)
        = Outcome.ret (ref_match body (digest_suffix password))
      ∧ (pwned_count (ok_transport body) password).2
          = Outcome.ret (ref_match body (digest_suffix password))
      ∧ (digest_suffix password).length = 35
      ∧ ref_match (digest_suffix password ++ lit ":3") (digest_suffix password) = (true, 3)
      ∧ ref_match [] (digest_suffix password) = (false, 0)
      ∧ ((ref_match body (digest_suffix password)).1 = false
          → ref_match body (digest_suffix password) = (false, 0)) := by
  refine ⟨match_body_eq _ _, ?_, digest_suffix_length password, ?_, ?_, ?_⟩
  · rw [pwned_count_eq]
    simp [ok_transport]
  · apply ref_match_single
    · intro h; have := digest_suffix_chars password 10 h; omega
    · intro h; have := digest_suffix_chars password 58 h; omega
  · simp [ref_match, response_lines, split_lines, strip_cr]
  · unfold ref_match
    split <;> simp

/-- C6: when the transport reports an error (no handle, or a perform result
other than `CURLE_OK`) or the HTTP status is not 200, `pwned_count` throws and
returns nothing, in particular not `(false, 0)`; when the transport succeeds
with status 200, `pwned_count` returns a result. -/
theorem C6_transport_failure_throws (net : Transport) (password : Str) :
    ((net.init_ok = false ∨ (net.perform (range_request password)).rc ≠ CURLE_OK
          ∨ (net.perform (range_request password)).http_code ≠ 200)
        → (∃ what, (pwned_count net password).2 = Outcome.throw what)
          ∧ (∀ r, (pwned_count net password).2 ≠ Outcome.ret r))
      ∧ ((net.init_ok = true ∧ (net.perform (range_request password)).rc = CURLE_OK
          ∧ (net.perform (range_request password)).http_code = 200)
        → ∃ r, (pwned_count net password).2 = Outcome.ret r) := by
  constructor
  · intro h
    have hthrow : ∃ what, (pwned_count net password).2 = Outcome.throw what := by
      rw [pwned_count_eq]
      by_cases h1 : net.init_ok = false
      · exact ⟨_, by rw [if_pos h1]⟩
      · by_cases h2 : (net.perform (range_request password)).rc ≠ CURLE_OK
        · exact ⟨_, by rw [if_neg h1, if_pos h2]⟩
        · by_cases h3 : (net.perform (range_request password)).http_code ≠ 200
          · exact ⟨_, by rw [if_neg h1, if_neg h2, if_pos h3]⟩
          · rcases h with h | h | h
            · exact absurd h h1
            · exact absurd h h2
            · exact absurd h h3
    refine ⟨hthrow, ?_⟩
    obtain ⟨what, hw⟩ := hthrow
    intro r hr
    rw [hw] at hr
    cases hr
  · rintro ⟨h1, h2, h3⟩
    refine ⟨ref_match (net.perform (range_request password)).body (digest_suffix password), ?_⟩
    rw [pwned_count_eq]
    simp only [h1, h2, h3, Bool.true_eq_false, if_false, ne_eq, not_true_eq_false]

set_option maxRecDepth 1000000 in
/-- C7 fails as stated: the count field `-5` is not a non-negative integer, the
line's suffix is the digest suffix of `password`, and `pwned_count` returns
`(true, -5)`, not the fallback `(true, 1)`. -/
theorem C7_counterexample :
    is_nonneg_decimal (line_value (lit "1E4C9B93F3F0682250B6CF8331B7EE68FD8:-5")) = false
      ∧ line_key (lit "1E4C9B93F3F0682250B6CF8331B7EE68FD8:-5") = digest_suffix (lit "password")
      ∧ (pwned_count (ok_transport (lit "1E4C9B93F3F0682250B6CF8331B7EE68FD8:-5"))
          (lit "password")).2 = Outcome.ret (true, -5)
      ∧ (pwned_count (ok_transport (lit "1E4C9B93F3F0682250B6CF8331B7EE68FD8:-5"))
          (lit "password")).2 ≠ Outcome.ret (true, 1) := by
  decide

/-- C7, as the code has it: for the first considered line whose suffix is the
password's digest suffix, `pwned_count` does not fail and returns
`found = true`; the count is the integer `std::stoi` reads from the text after
the first colon (optional whitespace, an optional sign, then the leading
digits; what follows them is ignored), and the fallback 1 when `stoi` throws,
as it does when that text has no digit or the value does not fit an `int`. -/
theorem C7_count_fallback (password body l : Str)
    (hl : (response_lines body).find? (fun l => line_key l == digest_suffix password) = some l) :
    (pwned_count (ok_transport body) password).2
        = Outcome.ret (true, match stoi (line_value l) with
            | some n => n
            | none => 1)
      ∧ (stoi (line_value l) = none
          → (pwned_count (ok_transport body) password).2 = Outcome.ret (true, 1))
      ∧ ((∀ c ∈ line_value l, isdigit c = false)
          → (pwned_count (ok_transport body) password).2 = Outcome.ret (true, 1))
      ∧ stoi (lit "") = none ∧ stoi (lit "x") = none ∧ stoi (lit "99999999999") = none
      ∧ stoi (lit "3") = some 3 ∧ stoi (lit "-5") = some (-5) ∧ stoi (lit "12abc") = some 12 := by
  have h := pwned_count_ok body password
  rw [ref_match_of_find body _ l hl] at h
  have hc : line_count l = match stoi (line_value l) with
      | some n => n
      | none => 1 := by
    unfold line_count
    cases stoi (line_value l) <;> rfl
  rw [hc] at h
  refine ⟨h, ?_, ?_, by decide, by decide, by decide, by decide, by decide, by decide⟩
  · intro hn
    rw [h, hn]
  · intro hd
    rw [h, stoi_no_digit _ hd]

set_option maxRecDepth 1000000 in
/-- C7 at the body `1E4C...FD8:x` for the password `password`: the count is 1. -/
theorem C7_count_fallback_witness :
    (response_lines (lit "1E4C9B93F3F0682250B6CF8331B7EE68FD8:x")).find?
          (fun l => line_key l == digest_suffix (lit "password"))
        = some (lit "1E4C9B93F3F0682250B6CF8331B7EE68FD8:x")
      ∧ (pwned_count (ok_transport (lit "1E4C9B93F3F0682250B6CF8331B7EE68FD8:x"))
          (lit "password")).2 = Outcome.ret (true, 1) :=
  ⟨by decide,
   ((C7_count_fallback (lit "password") (lit "1E4C9B93F3F0682250B6CF8331B7EE68FD8:x")
      (lit "1E4C9B93F3F0682250B6CF8331B7EE68FD8:x") (by decide)).2.1 (by decide))⟩

set_option maxRecDepth 1000000 in
/-- C8 fails as stated: the service answers with the digest suffix of
`password` in lowercase, equal to it up to letter case, and `pwned_count`
returns `(false, 0)`. -/
theorem C8_counterexample :
    lower (line_key (lit "1e4c9b93f3f0682250b6cf8331b7ee68fd8:3"))
        = lower (digest_suffix (lit "password"))
      ∧ (pwned_count (ok_transport (lit "1e4c9b93f3f0682250b6cf8331b7ee68fd8:3"))
          (lit "password")).2 = Outcome.ret (false, 0) := by
  decide

/-- C8, as the code has it: suffixes are compared byte for byte, with no case
normalization.  The result is `found = true` exactly when some considered line
has a suffix equal to the password's digest suffix, and then carries the count
of the first such line; when no line's suffix is equal to it, whatever its
letter case, the result is `(false, 0)`. -/
theorem C8_exact_match_only (password body : Str) :
    ((∃ n, (pwned_count (ok_transport body) password).2 = Outcome.ret (true, n))
        ↔ ∃ l ∈ response_lines body, line_key l = digest_suffix password)
      ∧ ((∀ l ∈ response_lines body, line_key l ≠ digest_suffix password)
          → (pwned_count (ok_transport body) password).2 = Outcome.ret (false, 0))
      ∧ (∀ l, (response_lines body).find? (fun l => line_key l == digest_suffix password)
            = some l
          → (pwned_count (ok_transport body) password).2 = Outcome.ret (true, line_count l)) := by
  rw [pwned_count_ok]
  refine ⟨?_, ?_, ?_⟩
  · constructor
    · rintro ⟨n, hn⟩
      cases hf : (response_lines body).find? (fun l => line_key l == digest_suffix password) with
      | none =>
        rw [ref_match_of_none _ _ hf] at hn
        simp at hn
      | some l =>
        have := List.find?_some hf
        exact ⟨l, List.mem_of_find?_eq_some hf, by simpa using this⟩
    · rintro ⟨l, hl, hk⟩
      cases hf : (response_lines body).find? (fun l => line_key l == digest_suffix password) with
      | none =>
        rw [List.find?_eq_none] at hf
        have := hf l hl
        simp [hk] at this
      | some l2 =>
        exact ⟨_, by rw [ref_match_of_find _ _ l2 hf]⟩
  · intro h
    rw [ref_match_of_none]
    rw [List.find?_eq_none]
    intro l hl
    simpa using h l hl
  · intro l hl
    rw [ref_match_of_find _ _ l hl]

/-- C9: `sha1_hex_upper s` has exactly 40 characters, each `0`-`9` or `A`-`F`:
the two zero-padded uppercase hexadecimal digits of each of the 20 digest
bytes, in byte order; and it is a function of `s` alone. -/
theorem C9_sha1_hex_upper_format (s : Str) :
    (sha1_hex_upper s).length = 40
      ∧ (∀ c ∈ sha1_hex_upper s, (48 ≤ c ∧ c ≤ 57) ∨ (65 ≤ c ∧ c ≤ 70))
      ∧ (SHA1 s).length = 20
      ∧ (∀ i, i < 20 →
          (sha1_hex_upper s).getD (2 * i) 0 = hex_digit_upper ((SHA1 s).getD i 0 % 256 / 16)
          ∧ (sha1_hex_upper s).getD (2 * i + 1) 0
              = hex_digit_upper ((SHA1 s).getD i 0 % 256 % 16))
      ∧ (∀ s2 : Str, s2 = s → sha1_hex_upper s2 = sha1_hex_upper s) := by
  refine ⟨sha1_hex_upper_length s, sha1_hex_upper_chars s, SHA1_length s, ?_, ?_⟩
  · intro i hi
    rw [sha1_hex_upper_eq]
    have := pairs_getD (fun i => hex_digit_upper ((SHA1 s).getD i 0 % 256 / 16))
      (fun i => hex_digit_upper ((SHA1 s).getD i 0 % 256 % 16)) (List.range 20) i (by simpa using hi)
    have hr : (List.range 20).getD i 0 = i := by
      simp [List.getD_eq_getElem?_getD, List.getElem?_range hi]
    simpa only [hr] using this
  · intro s2 h; rw [h]

/-- C10: the common-pattern reason occurs exactly once in `reasons` when the
password, with its uppercase letters `A`-`Z` replaced by `a`-`z`, contains one of "password", "letmein", "qwerty", "admin",
"welcome", "iloveyou", "12345", "111111", "000000" (which a longer listed run
123456..123456789 always does), and not at all otherwise; a password matching
several entries is penalised 2 once.  `PASSWORD` and `Admin#12345` are flagged
once like `password12345`; `pass-word` is not flagged. -/
theorem C10_common_pattern_once (pw h : Str) :
    ((analyze_password pw h).reasons.count R_common
        = if ∃ w ∈ common_words, w <:+: ascii_lowercase pw then 1 else 0)
      ∧ ((∃ w ∈ longer_runs, w <:+: ascii_lowercase pw)
          → ∃ w ∈ common_words, w <:+: ascii_lowercase pw)
      ∧ (analyze_password (lit "password12345") []).reasons.count R_common = 1
      ∧ (analyze_password (lit "password12345") []).score = 0
      ∧ (analyze_password (lit "PASSWORD") []).reasons.count R_common = 1
      ∧ (analyze_password (lit "Admin#12345") []).reasons.count R_common = 1
      ∧ (analyze_password (lit "pass-word") []).reasons.count R_common = 0 := by
  simp only [← lower_eq_ascii_lowercase]
  have e1 : (len_reasons (static_cast_int pw.length)).count R_common = 0 := by
    rw [List.count_eq_zero, mem_len_reasons]
    simp [R_common, R_too_short, R_short]
  have e2 : (R_variety = R_common) = False := by simp [R_common, R_variety]
  have e3 : (R_repeat = R_common) = False := by simp [R_common, R_repeat]
  have e4 : (R_seq = R_common) = False := by simp [R_common, R_seq]
  have e5 : (R_walk = R_common) = False := by simp [R_common, R_walk]
  have e6 : (R_year = R_common) = False := by simp [R_common, R_year]
  have e7 : (R_site = R_common) = False := by simp [R_common, R_site]
  refine ⟨?_, infix_of_longer_run (lower pw), by decide, by decide, by decide, by decide,
    by decide⟩
  simp only [analyze_password, run_rules_eq, List.count_append, count_fired, e1, e2, e3, e4, e5,
    e6, e7, and_false, if_false, and_true, zero_add, add_zero, common_hit_iff]

/-- C11: the site-reuse reason occurs in `reasons` iff the hint is non-empty
and the password contains the hint, both taken with their uppercase letters
`A`-`Z` replaced by `a`-`z` (so `MyBANK77` with hint `bank`, and `mybank2021`
with hint `BANK`, are flagged); for the empty hint
it never occurs and the score is the score after rules 1 to 7, as if rule 8
did not exist (rule 8 is the last step of the rules and takes 1 off exactly
when it fires).  `analyze("mybank2021", "bank")` has the reason. -/
theorem C11_site_reuse (pw h : Str) :
    (R_site ∈ (analyze_password pw h).reasons
        ↔ h ≠ [] ∧ ascii_lowercase h <:+: ascii_lowercase pw)
      ∧ R_site ∉ (analyze_password pw []).reasons
      ∧ (analyze_password pw []).score = (run_rules_before_site pw).score
      ∧ (analyze_password pw h).score
          = (run_rules_before_site pw).score
            - (if h ≠ [] ∧ ascii_lowercase h <:+: ascii_lowercase pw then 1 else 0)
      ∧ run_rules pw h = rule_site (lower pw) h (run_rules_before_site pw)
      ∧ R_site ∈ (analyze_password (lit "mybank2021") (lit "bank")).reasons
      ∧ R_site ∈ (analyze_password (lit "MyBANK77") (lit "bank")).reasons
      ∧ R_site ∈ (analyze_password (lit "mybank2021") (lit "BANK")).reasons
      ∧ R_site ∉ (analyze_password (lit "mybank2021") (lit "banc")).reasons := by
  simp only [← lower_eq_ascii_lowercase]
  have hs : ∀ q : Str, (analyze_password pw q).score
      = (run_rules_before_site pw).score + penalty (site_hit (lower pw) q) (-1) := by
    intro q
    show (run_rules pw q).score = _
    rw [run_rules_split, rule_site_eq]
  refine ⟨?_, ?_, ?_, ?_, rfl, by decide, by decide, by decide, by decide⟩
  · rw [site_mem, site_hit_iff]
  · rw [site_mem, site_hit_iff]; simp
  · rw [hs]; simp [site_hit, penalty]
  · rw [hs]
    by_cases hh : h ≠ [] ∧ lower h <:+: lower pw
    · rw [if_pos hh, (site_hit_iff _ _).mpr hh]; simp [penalty]; ring
    · have : site_hit (lower pw) h = false := by
        rw [← Bool.not_eq_true, site_hit_iff]; exact hh
      rw [if_neg hh, this]; simp [penalty]

/-- C12: the year reason occurs in `reasons`, and then exactly once, iff the
password contains the four-digit decimal text of some year `y` with
`1990 <= y <= 2030`; a password with several such years is penalised once.
`analyze("mybank2021", "bank")` has the reason. -/
theorem C12_year (pw h : Str) :
    (R_year ∈ (analyze_password pw h).reasons
        ↔ ∃ y, 1990 ≤ y ∧ y ≤ 2030 ∧ four_digits y <:+: pw)
      ∧ (R_year ∈ (analyze_password pw h).reasons
          → (analyze_password pw h).reasons.count R_year = 1)
      ∧ (analyze_password pw h).reasons.count R_year ≤ 1
      ∧ (∀ y, 1990 ≤ y → y ≤ 2030 → to_string y = four_digits y)
      ∧ (analyze_password (lit "19902021") []).reasons.count R_year = 1
      ∧ R_year ∈ (analyze_password (lit "mybank2021") (lit "bank")).reasons := by
  refine ⟨?_, count_of_mem pw h R_year,
    List.nodup_iff_count_le_one.mp (reasons_nodup pw h) R_year, ?_, by decide, by decide⟩
  · rw [year_mem, year_hit_iff]
    constructor
    · rintro ⟨y, h1, h2, h3⟩
      exact ⟨y, h1, h2, (infix_lower_iff _ _ (four_digits_case_free y)).mp h3⟩
    · rintro ⟨y, h1, h2, h3⟩
      exact ⟨y, h1, h2, (infix_lower_iff _ _ (four_digits_case_free y)).mpr h3⟩
  · intro y h1 h2
    have := to_string_year (y - 1990) (by omega)
    rwa [show 1990 + (y - 1990) = y by omega] at this

/-- C13: the digit-sequence reason occurs in `reasons` iff the password
contains 4 contiguous characters that are themselves a substring of
"0123456789" or of "9876543210"; it never occurs for a password shorter than
4 characters. -/
theorem C13_digit_sequence (pw h : Str) :
    (R_seq ∈ (analyze_password pw h).reasons
        ↔ ∃ w, w.length = 4 ∧ w <:+: pw
            ∧ (w <:+: lit "0123456789" ∨ w <:+: lit "9876543210"))
      ∧ (pw.length < 4 → R_seq ∉ (analyze_password pw h).reasons) := by
  have key : R_seq ∈ (analyze_password pw h).reasons
      ↔ ∃ w, w.length = 4 ∧ w <:+: pw
          ∧ (w <:+: lit "0123456789" ∨ w <:+: lit "9876543210") := by
    rw [seq_mem, has_seq_digits_iff]
    constructor
    · rintro ⟨w, h1, h2, h3⟩
      exact ⟨w, h1, (infix_lower_iff _ _ (case_free_of_mem_digits w h3)).mp h2, h3⟩
    · rintro ⟨w, h1, h2, h3⟩
      exact ⟨w, h1, (infix_lower_iff _ _ (case_free_of_mem_digits w h3)).mpr h2, h3⟩
  refine ⟨key, ?_⟩
  intro hlen hmem
  obtain ⟨w, h1, h2, _⟩ := key.mp hmem
  have := h2.length_le
  omega

/-- C14: the keyboard-walk reason occurs in `reasons` iff the password, with
its uppercase letters `A`-`Z` replaced by `a`-`z`, contains 4 contiguous
characters that are a substring of one of the
rows "qwertyuiop", "asdfghjkl", "zxcvbnm" or of the reverse of one of them;
`analyze("abc1qwer", "")` is flagged, for "qwer", and so are `xxQWERxx` and
`LkJh1`; it never occurs for a
password shorter than 4 characters. -/
theorem C14_keyboard_walk (pw h : Str) :
    (R_walk ∈ (analyze_password pw h).reasons
        ↔ ∃ w, w.length = 4 ∧ w <:+: ascii_lowercase pw
            ∧ ∃ r ∈ [lit "qwertyuiop", lit "asdfghjkl", lit "zxcvbnm"],
                w <:+: r ∨ w <:+: r.reverse)
      ∧ R_walk ∈ (analyze_password (lit "abc1qwer") []).reasons
      ∧ (lit "qwer" <:+: ascii_lowercase (lit "abc1qwer") ∧ lit "qwer" <:+: lit "qwertyuiop")
      ∧ R_walk ∈ (analyze_password (lit "xxQWERxx") []).reasons
      ∧ R_walk ∈ (analyze_password (lit "LkJh1") []).reasons
      ∧ R_walk ∉ (analyze_password (lit "qwe1rty") []).reasons
      ∧ (pw.length < 4 → R_walk ∉ (analyze_password pw h).reasons) := by
  simp only [← lower_eq_ascii_lowercase]
  have key : R_walk ∈ (analyze_password pw h).reasons
      ↔ ∃ w, w.length = 4 ∧ w <:+: lower pw
          ∧ ∃ r ∈ [lit "qwertyuiop", lit "asdfghjkl", lit "zxcvbnm"],
              w <:+: r ∨ w <:+: r.reverse := by
    rw [walk_mem, has_keyboard_walk_iff, lower_lower]
    rfl
  refine ⟨key, by decide, by decide, by decide, by decide, by decide, ?_⟩
  intro hlen hmem
  obtain ⟨w, h1, h2, _⟩ := key.mp hmem
  have := h2.length_le
  simp only [lower, List.length_map] at this
  omega

/-- C15: the repeated-character reason occurs in `reasons`, and then exactly
once however many runs there are, iff some index `i` has
`pw[i] = pw[i+1] = pw[i+2]`; `analyze("aaa1", "")` is flagged; it never occurs
for a password shorter than 3 characters. -/
theorem C15_repeated_characters (pw h : Str) :
    (R_repeat ∈ (analyze_password pw h).reasons
        ↔ ∃ i, i + 2 < pw.length ∧ pw.getD i 0 = pw.getD (i + 1) 0
            ∧ pw.getD i 0 = pw.getD (i + 2) 0)
      ∧ (R_repeat ∈ (analyze_password pw h).reasons
          → (analyze_password pw h).reasons.count R_repeat = 1)
      ∧ (analyze_password pw h).reasons.count R_repeat ≤ 1
      ∧ R_repeat ∈ (analyze_password (lit "aaa1") []).reasons
      ∧ (analyze_password (lit "aaaa1bbb") []).reasons.count R_repeat = 1
      ∧ (pw.length < 3 → R_repeat ∉ (analyze_password pw h).reasons) := by
  have key : R_repeat ∈ (analyze_password pw h).reasons
      ↔ ∃ i, i + 2 < pw.length ∧ pw.getD i 0 = pw.getD (i + 1) 0
          ∧ pw.getD i 0 = pw.getD (i + 2) 0 := by
    rw [repeat_mem, repeat_hit_iff]
  refine ⟨key, count_of_mem pw h R_repeat,
    List.nodup_iff_count_le_one.mp (reasons_nodup pw h) R_repeat, by decide, by decide, ?_⟩
  intro hlen hmem
  obtain ⟨i, hi, _⟩ := key.mp hmem
  omega

/-- C16: every password shorter than 8 bytes gets "Too short (<8)"; for every
password below 2^31 bytes, "Too short (<8)" is in `reasons` iff the length is
below 8, and "Short (<12)" iff the length is in [8,12).  At 2^31 bytes the
code departs from this: `static_cast<int>` of the size is -2^31, which is the
reported length, and a password of 2^31 bytes `a` gets "Too short (<8)". -/
theorem C16_length_reasons :
    (∀ pw h : Str, pw.length < 8 → R_too_short ∈ (analyze_password pw h).reasons)
      ∧ (∀ pw h : Str, pw.length < 2 ^ 31 →
          (R_too_short ∈ (analyze_password pw h).reasons ↔ pw.length < 8)
          ∧ (R_short ∈ (analyze_password pw h).reasons ↔ 8 ≤ pw.length ∧ pw.length < 12))
      ∧ (List.replicate (2 ^ 31) 97).length = 2 ^ 31
      ∧ (analyze_password (List.replicate (2 ^ 31) 97) []).length = -(2 ^ 31)
      ∧ R_too_short ∈ (analyze_password (List.replicate (2 ^ 31) 97) []).reasons := by
  have hlen : ∀ pw h : Str, (analyze_password pw h).length = static_cast_int pw.length :=
    fun _ _ => rfl
  have hbig : (analyze_password (List.replicate (2 ^ 31) 97) []).length = -(2 ^ 31) := by
    rw [hlen, List.length_replicate]
    decide
  refine ⟨?_, ?_, List.length_replicate _ _, hbig, ?_⟩
  · intro pw h hl
    rw [too_short_mem, hlen, static_cast_int_of_lt _ (by omega)]
    exact_mod_cast hl
  · intro pw h hl
    rw [too_short_mem, short_mem, hlen, static_cast_int_of_lt _ hl]
    constructor
    · exact Nat.cast_lt (n := 8)
    · constructor
      · rintro ⟨h1, h2⟩; exact ⟨by exact_mod_cast h1, by exact_mod_cast h2⟩
      · rintro ⟨h1, h2⟩; exact ⟨by exact_mod_cast h1, by exact_mod_cast h2⟩
  · rw [too_short_mem, hbig]
    decide

/-- C17: `suggestions` is the fixed checklist "Use 14+ characters", "Mix
upper/lower/digit/symbol", "Avoid common words or substitutions", "Do not
include the site/app name", "Avoid years or dates", "Avoid sequences like 1234
or 4321", filtered in that order by: reported length below 14, variety below 3,
and the common-pattern, site-reuse, year and digit-sequence reasons being
present; reordering the reasons does not change it. -/
theorem C17_suggestions (pw h : Str) :
    (analyze_password pw h).suggestions
        = (([(decide ((analyze_password pw h).length < 14), "Use 14+ characters"),
            (decide ((analyze_password pw h).variety < 3), "Mix upper/lower/digit/symbol"),
            (decide (R_common ∈ (analyze_password pw h).reasons),
              "Avoid common words or substitutions"),
            (decide (R_site ∈ (analyze_password pw h).reasons),
              "Do not include the site/app name"),
            (decide (R_year ∈ (analyze_password pw h).reasons), "Avoid years or dates"),
            (decide (R_seq ∈ (analyze_password pw h).reasons),
              "Avoid sequences like 1234 or 4321")] : List (Bool × String)).filter
            (fun c => c.1)).map (fun c => c.2)
      ∧ (∀ rs : List String, rs.Perm (analyze_password pw h).reasons →
          suggest (analyze_password pw h).length (analyze_password pw h).variety rs
            = (analyze_password pw h).suggestions)
      ∧ (pw.length < 2 ^ 31 → (analyze_password pw h).length = pw.length) := by
  have hs : (analyze_password pw h).suggestions
      = suggest (analyze_password pw h).length (analyze_password pw h).variety
          (analyze_password pw h).reasons := rfl
  refine ⟨?_, ?_, static_cast_int_of_lt _⟩
  · rw [hs, suggest_eq]; rfl
  · intro rs hp
    rw [hs, suggest_eq, suggest_eq]
    simp only [checklist, hp.mem_iff]

/-- C18: `reasons` is a duplicate-free subsequence of the fixed list of the
nine reasons in rule order: too short, short, needs more variety, common
word/pattern, repeated characters, digit sequence, keyboard sequence, common
year, site/app name; the two length reasons never occur together. -/
theorem C18_reasons_order (pw h : Str) :
    List.Sublist (analyze_password pw h).reasons
        ["Too short (<8)", "Short (<12)", "Needs more character variety",
         "Contains common word/pattern (easily guessed)",
         "Contains repeated characters (e.g., aaa)", "Contains digit sequence (e.g., 1234)",
         "Keyboard sequence (e.g., qwerty)", "Includes a common year",
         "Contains site/app name (reuse risk)"]
      ∧ (analyze_password pw h).reasons.Nodup
      ∧ ¬ ("Too short (<8)" ∈ (analyze_password pw h).reasons
            ∧ "Short (<12)" ∈ (analyze_password pw h).reasons) := by
  refine ⟨reasons_sublist pw h, reasons_nodup pw h, ?_⟩
  rintro ⟨h1, h2⟩
  have h1 := (too_short_mem pw h).mp h1
  have h2 := (short_mem pw h).mp h2
  omega

/-- C19: `analyze_password("password")` has the common word/pattern reason and
a strictly lower score than `analyze_password("Xk9#mQ2@pL")`, whose reasons do
not contain it. -/
theorem C19_password_example :
    R_common ∈ (analyze_password (lit "password") []).reasons
      ∧ (analyze_password (lit "password") []).score
          < (analyze_password (lit "Xk9#mQ2@pL") []).score
      ∧ R_common ∉ (analyze_password (lit "Xk9#mQ2@pL") []).reasons
      ∧ (analyze_password (lit "password") []).score = -1
      ∧ (analyze_password (lit "Xk9#mQ2@pL") []).score = 4 := by
  decide

/-- C20: the score lies in [-6, 6].  It is bounded below by -6 although the
penalties total 7, because the keyboard-walk and the year penalty fire
together only on a password of at least 8 bytes with variety at least 2.  A
score of 6, which is the rating Strong, needs a length of at least 16, variety
4 and no reason at all. -/
theorem C20_score_bounds (pw h : Str) :
    -6 ≤ (analyze_password pw h).score ∧ (analyze_password pw h).score ≤ 6
      ∧ (R_walk ∈ (analyze_password pw h).reasons → R_year ∈ (analyze_password pw h).reasons
          → 8 ≤ pw.length ∧ 2 ≤ (analyze_password pw h).variety)
      ∧ ((analyze_password pw h).score = 6
          → 16 ≤ (analyze_password pw h).length ∧ 16 ≤ pw.length
            ∧ (analyze_password pw h).variety = 4 ∧ (analyze_password pw h).reasons = [])
      ∧ ((analyze_password pw h).rating = "Strong" ↔ (analyze_password pw h).score = 6) := by
  have hs := score_eq pw h
  have hl := len_bonus_bounds (analyze_password pw h).length
  have hv := var_bonus_bounds (analyze_password pw h).variety
  have hvar : (analyze_password pw h).variety = count_variety pw := rfl
  have hlen : (analyze_password pw h).length = static_cast_int pw.length := rfl
  have hwy : has_keyboard_walk (lower pw) 4 = true → year_hit (lower pw) = true
      → 1 ≤ var_bonus (analyze_password pw h).variety := by
    intro a b
    have := (walk_and_year pw a b).2
    rw [hvar]
    unfold var_bonus
    split_ifs <;> omega
  have hup : (analyze_password pw h).score ≤ 6 := by
    rw [hs]
    simp only [penalty]
    split_ifs <;> omega
  have hlow : -6 ≤ (analyze_password pw h).score := by
    rw [hs]
    by_cases a : has_keyboard_walk (lower pw) 4 = true
    · by_cases b : year_hit (lower pw) = true
      · have := hwy a b
        simp only [penalty]
        split_ifs <;> omega
      · have b2 : year_hit (lower pw) = false := by simpa using b
        rw [b2]
        simp only [penalty, Bool.false_eq_true, if_false]
        split_ifs <;> omega
    · have a2 : has_keyboard_walk (lower pw) 4 = false := by simpa using a
      rw [a2]
      simp only [penalty, Bool.false_eq_true, if_false]
      split_ifs <;> omega
  refine ⟨hlow, hup, ?_, ?_, ?_⟩
  · intro a b
    rw [walk_mem] at a
    rw [year_mem] at b
    exact walk_and_year pw a b
  · intro h6
    rw [hs] at h6
    have e : len_bonus (analyze_password pw h).length = 3
        ∧ var_bonus (analyze_password pw h).variety = 3
        ∧ common_hit (lower pw) = false ∧ repeat_hit pw = false
        ∧ has_seq_digits (lower pw) 4 = false ∧ has_keyboard_walk (lower pw) 4 = false
        ∧ year_hit (lower pw) = false ∧ site_hit (lower pw) h = false := by
      have p1 := penalty_nonpos (common_hit (lower pw)) (-2) (by omega)
      have p2 := penalty_nonpos (repeat_hit pw) (-1) (by omega)
      have p3 := penalty_nonpos (has_seq_digits (lower pw) 4) (-1) (by omega)
      have p4 := penalty_nonpos (has_keyboard_walk (lower pw) 4) (-1) (by omega)
      have p5 := penalty_nonpos (year_hit (lower pw)) (-1) (by omega)
      have p6 := penalty_nonpos (site_hit (lower pw) h) (-1) (by omega)
      exact ⟨by omega, by omega, penalty_eq_zero _ (-2) (by omega) (by omega),
        penalty_eq_zero _ (-1) (by omega) (by omega), penalty_eq_zero _ (-1) (by omega) (by omega),
        penalty_eq_zero _ (-1) (by omega) (by omega), penalty_eq_zero _ (-1) (by omega) (by omega),
        penalty_eq_zero _ (-1) (by omega) (by omega)⟩
    obtain ⟨e1, e2, e3, e4, e5, e6, e7, e8⟩ := e
    have g1 : 16 ≤ (analyze_password pw h).length := by
      unfold len_bonus at e1
      split_ifs at e1 <;> omega
    have g2 : (analyze_password pw h).variety = 4 := by
      have := count_variety_bounds pw
      unfold var_bonus at e2
      rw [hvar] at e2 ⊢
      split_ifs at e2 <;> omega
    refine ⟨g1, ?_, g2, ?_⟩
    · have := static_cast_int_le pw.length
      rw [hlen] at g1
      omega
    · rw [reasons_eq, e3, e4, e5, e6, e7, e8]
      have hlr : len_reasons (static_cast_int pw.length) = [] := by
        rw [hlen] at g1
        unfold len_reasons
        split_ifs <;> first | rfl | omega
      have hvr : decide (count_variety pw ≤ 1) = false := by
        rw [hvar] at g2
        simp [g2]
      rw [hlr, hvr]
      rfl
  · have hr : (analyze_password pw h).rating = bucket (analyze_password pw h).score := rfl
    rw [hr]
    unfold bucket
    split_ifs <;> simp <;> omega

end PwChecker
